import Mathlib

/-!
Verification of the condition/expression subsystem of `bloop`
(`src/bloop/conditions.py`): the condition algebra, the reference tracker,
and the expression renderer, embedded shallowly in Lean.

Modelling conventions:
* Python `None` is `Option.none`; in-memory and wire values are opaque
  `Option String` payloads (the value codec is an external collaborator).
* Python dicts are association lists (`List (key × value)`): assignment
  updates an existing key in place or appends a fresh one, deletion removes
  the key.  `collections.defaultdict(lambda: 0)` is observed through a
  total lookup with default `0`; reference counts are `Int`, as Python
  integers are unbounded in both directions.
* Mutation is explicit state passing; a raised exception is an
  `Except.error` paired with the state at the moment of the raise.
-/

namespace Bloop

/- Association-list embedding of Python dict operations. -/

/-- `d[k]` / `d.get(k)`: first (and, with unique keys, only) match. -/
def alookup [DecidableEq κ] : List (κ × α) → κ → Option α
  | [], _ => none
  | (a, b) :: rest, key => if a = key then some b else alookup rest key

/-- `d[k] = v`: replace in place when the key exists, else append. -/
def dictInsert [DecidableEq κ] : List (κ × α) → κ → α → List (κ × α)
  | [], k, v => [(k, v)]
  | (a, b) :: rest, k, v =>
    if a = k then (k, v) :: rest else (a, b) :: dictInsert rest k v

/-- `del d[k]` (a no-op when the key is absent; the tracker only deletes
keys it knows to be present). -/
def dictRemove [DecidableEq κ] : List (κ × α) → κ → List (κ × α)
  | [], _ => []
  | (a, b) :: rest, k =>
    if a = k then dictRemove rest k else (a, b) :: dictRemove rest k

/-- One segment of an attribute path: a string key or an integer list index
(`ComparisonMixin._path` entries). -/
inductive PathSeg where
  | key (s : String)
  | idx (n : Nat)
deriving DecidableEq, BEq

/-- A type descriptor (`column.typedef`).  `supported` backs
`supports_operation`; `children` backs `typedef[segment]` descent;
`inner` backs `typedef.inner_typedef`. -/
inductive Typedef where
  | mk (backing_type : String) (supported : List String)
      (children : List (PathSeg × Typedef)) (inner : Option Typedef)

def Typedef.backing_type : Typedef → String
  | .mk b _ _ _ => b

def Typedef.supported : Typedef → List String
  | .mk _ s _ _ => s

/-- `typedef[segment]` (one step of nested type resolution). -/
def Typedef.child : Typedef → PathSeg → Option Typedef
  | .mk _ _ children _, seg => alookup children seg

/-- `typedef.inner_typedef`. -/
def Typedef.inner : Typedef → Option Typedef
  | .mk _ _ _ i => i

/-- `for segment in column._path: typedef = typedef[segment]`; `none` stands
for the `KeyError` Python would raise on a path the type does not declare. -/
def tdescend : Typedef → List PathSeg → Option Typedef
  | t, [] => some t
  | t, seg :: rest =>
    match t.child seg with
    | none => none
    | some c => tdescend c rest

/-- Modelled from the spec: the column abstraction (§6) exposes a declared
wire name (`dynamo_name`), a model-side attribute name (`model_name`), the
owning model's name (`model.__name__`, used in error messages), a backing
type descriptor, and an attribute path (`ComparisonMixin._path`). -/
structure Column where
  dynamo_name : String
  model_name : String
  model : String
  typedef : Typedef
  path : List PathSeg

/-- `column[piece]` (`ComparisonMixin.__getitem__`): same proxied column,
extended path. -/
def Column.getitem (c : Column) (seg : PathSeg) : Column :=
  { c with path := c.path ++ [seg] }

/-- An operand of a condition: a literal value (possibly `None`) or another
column (`isinstance(value, ComparisonMixin)` in `any_ref`). -/
inductive CVal where
  | lit (v : Option String)
  | col (c : Column)

/-- The exception taxonomy relevant to this module. -/
inductive BloopError where
  /-- `bloop.exceptions.InvalidCondition` (imported at the top of
  `conditions.py`), carrying its message. -/
  | invalidCondition (msg : String)
  /-- Modelled from the spec: §7 names "a narrower `UnsupportedOperation`
  raised at algebra-construction time".  No code under `src/` defines or
  raises such an exception; it exists here only so statements about it can
  be made. -/
  | unsupportedOperation (msg : String)
  /-- Stands for a Python built-in error (`KeyError`/`AttributeError`/
  `TypeError`) escaping on malformed input; not a bloop exception. -/
  | pyError

/-- The value-dump collaborator (`engine._dump`).  Modelled from the spec:
§6 "Value-dump function: `(type_descriptor, in_memory_value) ->
wire_value`, deterministic and side-effect-free". -/
structure Engine where
  dump : Typedef → Option String → Option String

/-- `Reference = namedtuple("Reference", ["name", "type", "value"])`. -/
structure Reference where
  name : String
  type : String
  value : Option String

/-- `is_empty(ref)`: True if ref is a value ref with None value. -/
def is_empty (ref : Reference) : Bool :=
  ref.type == "value" && ref.value == none

/-- `comparison_aliases`. -/
def comparison_aliases : List (String × String) :=
  [("==", "="), ("!=", "<>"), ("<", "<"), (">", ">"), ("<=", "<="), (">=", ">=")]

/-- `comparisons = list(comparison_aliases.keys())`. -/
def comparisons : List String :=
  comparison_aliases.map Prod.fst

/-- The reference tracker's state (`ReferenceTracker.__init__`), together
with the engine it dumps values through. -/
structure ReferenceTracker where
  /-- `self.__next_index` -/
  next_index : Nat
  /-- `self.counts = collections.defaultdict(lambda: 0)` (observed through
  `countGet`; entries the defaultdict would materialize at count 0 are not
  modelled, every observation of them is `0` either way). -/
  counts : List (String × Int)
  /-- `self.attr_values` -/
  attr_values : List (String × Option String)
  /-- `self.attr_names` -/
  attr_names : List (String × String)
  /-- `self.name_attr_index` -/
  name_attr_index : List (String × String)
  /-- `self.engine` -/
  engine : Engine

/-- A fresh tracker for one render session. -/
def initTracker (e : Engine) : ReferenceTracker :=
  { next_index := 0, counts := [], attr_values := [], attr_names := [],
    name_attr_index := [], engine := e }

/-- `self.counts[r]` as a read (defaultdict default `0`). -/
def countGet (t : ReferenceTracker) (r : String) : Int :=
  (alookup t.counts r).getD 0

/-- The `next_index` property: returns the current index and advances the
counter (which never decreases). -/
def takeIndex (t : ReferenceTracker) : Nat × ReferenceTracker :=
  (t.next_index, { t with next_index := t.next_index + 1 })

/-- The name-placeholder string `"#n{}".format(i)`. -/
def nref (i : Nat) : String :=
  "#n" ++ Nat.repr i

/-- The value-placeholder string `":v{}".format(i)`. -/
def vref (i : Nat) : String :=
  ":v" ++ Nat.repr i

/-- `ReferenceTracker._name_ref`. -/
def name_ref (t : ReferenceTracker) (name : String) : String × ReferenceTracker :=
  match alookup t.name_attr_index name with
  | some ref =>
    (ref, { t with counts := dictInsert t.counts ref (countGet t ref + 1) })
  | none =>
    let (i, t) := takeIndex t
    let ref := nref i
    (ref, { t with
        attr_names := dictInsert t.attr_names ref name,
        name_attr_index := dictInsert t.name_attr_index name ref,
        counts := dictInsert t.counts ref (countGet t ref + 1) })

/-- `str_pieces[-1] += suffix` (the list is never empty when this runs: the
first piece is the column's `dynamo_name`, a string). -/
def appendToLast : List String → String → List String
  | [], _ => []
  | [x], s => [x ++ s]
  | x :: xs, s => x :: appendToLast xs s

/-- The loop body of `ReferenceTracker._path_ref`. -/
def pathRefLoop (t : ReferenceTracker) :
    List PathSeg → List String → List String × ReferenceTracker
  | [], acc => (acc, t)
  | .idx n :: rest, acc =>
    pathRefLoop t rest (appendToLast acc ("[" ++ Nat.repr n ++ "]"))
  | .key s :: rest, acc =>
    let (r, t) := name_ref t s
    pathRefLoop t rest (acc ++ [r])

/-- `ReferenceTracker._path_ref`. -/
def path_ref (t : ReferenceTracker) (column : Column) : String × ReferenceTracker :=
  let (pieces, t) := pathRefLoop t (PathSeg.key column.dynamo_name :: column.path) []
  (String.intercalate "." pieces, t)

/-- `ReferenceTracker._value_ref`.  The placeholder index is consumed before
the value is dumped; a failing type lookup (Python `KeyError` /
`AttributeError`) is `pyError` with the index already spent. -/
def value_ref (t : ReferenceTracker) (column : Column) (value : Option String)
    (dumped : Bool) (inner : Bool) :
    Except BloopError (String × Option String) × ReferenceTracker :=
  let (i, t) := takeIndex t
  let ref := vref i
  if dumped then
    (.ok (ref, value),
     { t with attr_values := dictInsert t.attr_values ref value,
              counts := dictInsert t.counts ref (countGet t ref + 1) })
  else
    match tdescend column.typedef column.path with
    | none => (.error .pyError, t)
    | some td =>
      match (if inner then td.inner else some td) with
      | none => (.error .pyError, t)
      | some td =>
        let value := t.engine.dump td value
        (.ok (ref, value),
         { t with attr_values := dictInsert t.attr_values ref value,
                  counts := dictInsert t.counts ref (countGet t ref + 1) })

/-- `ReferenceTracker.any_ref`; `value = none` is the `missing` sentinel
(absent argument), `some (.lit none)` is an explicit Python `None`. -/
def any_ref (t : ReferenceTracker) (column : Column) (value : Option CVal)
    (dumped : Bool) (inner : Bool) : Except BloopError Reference × ReferenceTracker :=
  match value with
  | none =>
    let (name, t) := path_ref t column
    (.ok { name := name, type := "name", value := none }, t)
  | some (.col c) =>
    let (name, t) := path_ref t c
    (.ok { name := name, type := "name", value := none }, t)
  | some (.lit v) =>
    match value_ref t column v dumped inner with
    | (.ok (name, w), t) => (.ok { name := name, type := "value", value := w }, t)
    | (.error e, t) => (.error e, t)

/-- One iteration of `ReferenceTracker.pop_refs`.  In the last-reference
name branch Python reads `self.attr_names[name]`; for refs the tracker
handed out the key is present, so the impossible `KeyError` branch just
drops the (absent) entries. -/
def popRef (t : ReferenceTracker) (ref : Reference) : ReferenceTracker :=
  let name := ref.name
  let count := countGet t name
  if count < 1 then t
  else if count > 1 then
    { t with counts := dictInsert t.counts name (count - 1) }
  else
    let t := { t with counts := dictInsert t.counts name (count - 1) }
    if ref.type == "value" then
      { t with attr_values := dictRemove t.attr_values name }
    else
      match alookup t.attr_names name with
      | some path_segment =>
        { t with attr_names := dictRemove t.attr_names name,
                 name_attr_index := dictRemove t.name_attr_index path_segment }
      | none =>
        { t with attr_names := dictRemove t.attr_names name }

/-- `ReferenceTracker.pop_refs(*refs)`. -/
def pop_refs (t : ReferenceTracker) (refs : List Reference) : ReferenceTracker :=
  refs.foldl popRef t

/-- The closed variant type of condition nodes.  Every concrete
`BaseCondition` subclass of `conditions.py` is one constructor; the
`operation` strings are `none`/`"=="`/…/`"and"`/`"or"`/`"not"` in source
order.  `dumped` is the per-node flag the renderer consults. -/
inductive BaseCondition where
  /-- `Condition()` — the empty condition (`operation=None`). -/
  | empty
  /-- `ComparisonCondition(operation, column, value)`. -/
  | comparison (op : String) (column : Column) (value : CVal) (dumped : Bool)
  /-- `BeginsWithCondition(column, value)`. -/
  | begins_with (column : Column) (value : CVal) (dumped : Bool)
  /-- `BetweenCondition(column, lower, upper)`. -/
  | between (column : Column) (lower upper : CVal) (dumped : Bool)
  /-- `ContainsCondition(column, value)`. -/
  | contains (column : Column) (value : CVal) (dumped : Bool)
  /-- `InCondition(column, values)`. -/
  | isin (column : Column) (values : List CVal) (dumped : Bool)
  /-- `AndCondition(*values)`. -/
  | and (values : List BaseCondition)
  /-- `OrCondition(*values)`. -/
  | or (values : List BaseCondition)
  /-- `NotCondition(value)`. -/
  | not (value : BaseCondition)

/-- Modelled from the spec: `util.printable_column_name` is not under
`src/`; per the glossary an attribute path is the "dotted/indexed route"
from the model attribute, so the column's `model_name` is joined with `.`
for key segments and `[i]` for index segments. -/
def printable_column_name (c : Column) : String :=
  c.model_name ++ String.join (c.path.map fun seg =>
    match seg with
    | .key s => "." ++ s
    | .idx n => "[" ++ Nat.repr n ++ "]")

/-- Python `repr` of an opaque literal operand (`None` prints as `None`;
other payloads are opaque and print as themselves). -/
def reprLit : Option String → String
  | none => "None"
  | some s => s

/-- Modelled from the spec: the `repr` of a column used as an operand
(`ComparisonMixin._repr_with_path` delegation); only appears inside error
message text. -/
def reprColumn (c : Column) : String :=
  "<Column[" ++ c.model ++ "." ++ printable_column_name c ++ "]>"

/-- Python `repr` of one operand. -/
def reprCVal : CVal → String
  | .lit v => reprLit v
  | .col c => reprColumn c

/-- Python `repr` of a list of operands (`[a, b, ...]`). -/
def reprCValList (l : List CVal) : String :=
  "[" ++ String.intercalate ", " (l.map reprCVal) ++ "]"

mutual

/-- The `__repr__` of each condition class. -/
def reprCond : BaseCondition → String
  | .empty => "()"
  | .comparison op c v _ =>
    "(" ++ c.model ++ "." ++ printable_column_name c ++ " " ++ op ++ " " ++ reprCVal v ++ ")"
  | .begins_with c v _ =>
    "begins_with(" ++ c.model ++ "." ++ printable_column_name c ++ ", " ++ reprCVal v ++ ")"
  | .between c lo hi _ =>
    "(" ++ c.model ++ "." ++ printable_column_name c ++ " between [" ++
      reprCVal lo ++ ", " ++ reprCVal hi ++ "])"
  | .contains c v _ =>
    "contains(" ++ c.model ++ "." ++ printable_column_name c ++ ", " ++ reprCVal v ++ ")"
  | .isin c vs _ =>
    "(" ++ c.model ++ "." ++ printable_column_name c ++ " in " ++ reprCValList vs ++ ")"
  | .and vs =>
    match reprCondList vs with
    | [] => "( & )"
    | [r] => "(" ++ r ++ " &)"
    | rs => "(" ++ String.intercalate " & " rs ++ ")"
  | .or vs =>
    match reprCondList vs with
    | [] => "( | )"
    | [r] => "(" ++ r ++ " |)"
    | rs => "(" ++ String.intercalate " | " rs ++ ")"
  | .not v => "(~" ++ reprCond v ++ ")"

def reprCondList : List BaseCondition → List String
  | [] => []
  | c :: rest => reprCond c :: reprCondList rest

end

/-- `condition.operation`, as the source's string tag (`none` for the empty
condition). -/
def operation : BaseCondition → Option String
  | .empty => none
  | .comparison op _ _ _ => some op
  | .begins_with _ _ _ => some "begins_with"
  | .between _ _ _ _ => some "between"
  | .contains _ _ _ => some "contains"
  | .isin _ _ _ => some "in"
  | .and _ => some "and"
  | .or _ => some "or"
  | .not _ => some "not"

mutual

/-- Number of nodes in a condition tree (termination measure for the
`iter_conditions` worklist). -/
def condSize : BaseCondition → Nat
  | .and vs => 1 + condSizeList vs
  | .or vs => 1 + condSizeList vs
  | .not v => 1 + condSize v
  | _ => 1

def condSizeList : List BaseCondition → Nat
  | [] => 0
  | c :: rest => condSize c + condSizeList rest

end

/-- The children a popped condition pushes back onto the worklist
(`conditions.extend(reversed(condition.values))` for connectives). -/
def iterChildren : BaseCondition → List BaseCondition
  | .and vs => vs
  | .or vs => vs
  | .not v => [v]
  | _ => []

theorem condSizeList_append (a b : List BaseCondition) :
    condSizeList (a ++ b) = condSizeList a + condSizeList b := by
  induction a with
  | nil => simp [condSizeList]
  | cons c rest ih => simp [condSizeList, ih]; omega

theorem condSize_pos (c : BaseCondition) : 1 ≤ condSize c := by
  cases c <;> simp [condSize]

theorem condSizeList_iterChildren (c : BaseCondition) :
    condSizeList (iterChildren c) < condSize c := by
  cases c <;> simp [iterChildren, condSize, condSizeList]

/-- The worklist loop of `iter_conditions`: pop, yield, push children (the
stack is LIFO; `reversed` in the source makes children pop in order).  The
source's visited set is keyed by object identity (`__hash__ =
object.__hash__`); every node of a freshly built tree is a distinct
object, so on trees it never suppresses a yield and is omitted here. -/
def iterLoop : List BaseCondition → List BaseCondition
  | [] => []
  | c :: rest => c :: iterLoop (iterChildren c ++ rest)
termination_by stack => condSizeList stack
decreasing_by
  have := condSizeList_iterChildren c
  simp [condSizeList, condSizeList_append]
  omega

/-- `iter_conditions(condition)`: the root connective seeds its children
and is not itself yielded; a leaf seeds itself. -/
def iter_conditions (c : BaseCondition) : List BaseCondition :=
  iterLoop (iterChildren c ++ (match c with | .and _ | .or _ | .not _ => [] | _ => [c]))

/-- `len(condition)` (`__len__` of each class: the empty condition is 0, a
leaf is 1, `not` delegates to its child, `and`/`or` count the conditions
yielded by `iter_conditions(self)`). -/
def condLen : BaseCondition → Nat
  | .empty => 0
  | .and vs => (iterLoop vs).length
  | .or vs => (iterLoop vs).length
  | .not v => condLen v
  | _ => 1

/-- Python truthiness of a condition: `bool(c)` falls back to
`len(c) != 0`. -/
def condTruthy (c : BaseCondition) : Bool :=
  condLen c != 0

/-- `BaseCondition.__invert__` (also `__neg__`). -/
def cinvert : BaseCondition → BaseCondition
  | .empty => .empty
  | .not v => v
  | c => .not c

/-- `BaseCondition.__and__`. -/
def cand (a b : BaseCondition) : BaseCondition :=
  if !condTruthy b then a
  else if !condTruthy a then b
  else
    match a, b with
    | .and va, .and vb => .and (va ++ vb)
    | .and va, _ => .and (va ++ [b])
    | _, .and vb => .and (a :: vb)
    | _, _ => .and [a, b]

/-- `BaseCondition.__or__`. -/
def cor (a b : BaseCondition) : BaseCondition :=
  if !condTruthy b then a
  else if !condTruthy a then b
  else
    match a, b with
    | .or va, .or vb => .or (va ++ vb)
    | .or va, _ => .or (va ++ [b])
    | _, .or vb => .or (a :: vb)
    | _, _ => .or [a, b]

/-- Modelled from the spec: `types.supports_operation(operation, typedef)`
is not under `src/`; per §6 the backing-type descriptor supports a
`supports(operation)` predicate, embedded as membership in the descriptor's
declared operation set. -/
def supports_operation (op : String) (t : Typedef) : Bool :=
  t.supported.contains op

/-- The message `check_support` formats on failure (`"Backing type {!r} for
{}.{} does not support condition {!r}."`; note it reports the root
`column.typedef.backing_type`). -/
def unsupportedMsg (column : Column) (op : String) : String :=
  "Backing type '" ++ column.typedef.backing_type ++ "' for " ++ column.model ++ "." ++
    printable_column_name column ++ " does not support condition '" ++ op ++ "'."

/-- `check_support(column, operation)`: resolves the typedef at the
column's path and raises `InvalidCondition` when the operation is not
supported. -/
def check_support (column : Column) (op : String) : Except BloopError Unit :=
  match tdescend column.typedef column.path with
  | none => .error .pyError
  | some td =>
    if supports_operation op td then .ok ()
    else .error (.invalidCondition (unsupportedMsg column op))

/-- `ComparisonMixin.__eq__` and the other comparison constructors: the
support check runs at construction time, before the node exists. -/
def mixinComparison (column : Column) (op : String) (value : CVal) :
    Except BloopError BaseCondition :=
  match check_support column op with
  | .error e => .error e
  | .ok _ => .ok (.comparison op column value false)

/-- `ComparisonMixin.begins_with`. -/
def mixinBeginsWith (column : Column) (value : CVal) : Except BloopError BaseCondition :=
  match check_support column "begins_with" with
  | .error e => .error e
  | .ok _ => .ok (.begins_with column value false)

/-- `ComparisonMixin.between`. -/
def mixinBetween (column : Column) (lower upper : CVal) : Except BloopError BaseCondition :=
  match check_support column "between" with
  | .error e => .error e
  | .ok _ => .ok (.between column lower upper false)

/-- `ComparisonMixin.contains`. -/
def mixinContains (column : Column) (value : CVal) : Except BloopError BaseCondition :=
  match check_support column "contains" with
  | .error e => .error e
  | .ok _ => .ok (.contains column value false)

/-- `ComparisonMixin.in_`. -/
def mixinIn (column : Column) (values : List CVal) : Except BloopError BaseCondition :=
  match check_support column "in" with
  | .error e => .error e
  | .ok _ => .ok (.isin column values false)

/-- The loop of `InCondition.render`: allocate a value ref per value and,
on the first empty one, release everything allocated so far and raise
(`msg` is the message the node formats for itself). -/
def inLoop (col : Column) (dmp : Bool) (msg : String) :
    ReferenceTracker → List CVal → List Reference →
    Except BloopError (List Reference) × ReferenceTracker
  | t, [], acc => (.ok acc, t)
  | t, v :: rest, acc =>
    match any_ref t col (some v) dmp false with
    | (.error e, t) => (.error e, t)
    | (.ok r, t) =>
      let acc := acc ++ [r]
      if is_empty r then (.error (.invalidCondition msg), pop_refs t acc)
      else inLoop col dmp msg t rest acc

/-- `"...".join(...)` over child renders: Python raises `TypeError` when an
element is `None` (an empty child's render). -/
def seqOpts : List (Option String) → Option (List String)
  | [] => some []
  | none :: _ => none
  | some s :: rest => (seqOpts rest).map (s :: ·)

mutual

/-- `render(self, renderer)` of each condition class, over the tracker the
renderer owns.  An `Except.error` is a raised exception paired with the
tracker state at the raise. -/
def renderCond : BaseCondition → ReferenceTracker →
    Except BloopError (Option String) × ReferenceTracker
  | .empty, t => (.ok none, t)
  | .and vs, t =>
    if vs.isEmpty then
      (.error (.invalidCondition ("Invalid Condition: <" ++ reprCond (.and vs) ++
        "> does not contain any Conditions.")), t)
    else
      match renderList vs t with
      | (.error e, t) => (.error e, t)
      | (.ok rs, t) =>
        if rs.length == 1 then (.ok (rs.getD 0 none), t)
        else
          match seqOpts rs with
          | none => (.error .pyError, t)
          | some ss => (.ok (some ("(" ++ String.intercalate " AND " ss ++ ")")), t)
  | .or vs, t =>
    if vs.isEmpty then
      (.error (.invalidCondition ("Invalid Condition: <" ++ reprCond (.or vs) ++
        "> does not contain any Conditions.")), t)
    else
      match renderList vs t with
      | (.error e, t) => (.error e, t)
      | (.ok rs, t) =>
        if rs.length == 1 then (.ok (rs.getD 0 none), t)
        else
          match seqOpts rs with
          | none => (.error .pyError, t)
          | some ss => (.ok (some ("(" ++ String.intercalate " OR " ss ++ ")")), t)
  | .not v, t =>
    match renderCond v t with
    | (.error e, t) => (.error e, t)
    | (.ok r, t) => (.ok (some ("(NOT " ++ reprLit r ++ ")")), t)
  | .comparison op col v dmp, t =>
    match any_ref t col none dmp false with
    | (.error e, t) => (.error e, t)
    | (.ok column_ref, t) =>
      match any_ref t col (some v) dmp false with
      | (.error e, t) => (.error e, t)
      | (.ok value_ref, t) =>
        if value_ref.type == "name" || value_ref.value != none then
          match alookup comparison_aliases op with
          | none => (.error .pyError, t)
          | some al =>
            (.ok (some ("(" ++ column_ref.name ++ " " ++ al ++ " " ++
              value_ref.name ++ ")")), t)
        else if op == "==" || op == "!=" then
          let t := pop_refs t [value_ref]
          let fn := if op == "==" then "attribute_not_exists" else "attribute_exists"
          (.ok (some ("(" ++ fn ++ "(" ++ column_ref.name ++ "))")), t)
        else
          let t := pop_refs t [column_ref, value_ref]
          (.error (.invalidCondition ("Comparison <" ++
            reprCond (.comparison op col v dmp) ++ "> is against the value None.")), t)
  | .begins_with col v dmp, t =>
    match any_ref t col none dmp false with
    | (.error e, t) => (.error e, t)
    | (.ok column_ref, t) =>
      match any_ref t col (some v) dmp false with
      | (.error e, t) => (.error e, t)
      | (.ok value_ref, t) =>
        if is_empty value_ref then
          let t := pop_refs t [column_ref, value_ref]
          (.error (.invalidCondition ("Condition <" ++
            reprCond (.begins_with col v dmp) ++ "> is against the value None.")), t)
        else
          (.ok (some ("(begins_with(" ++ column_ref.name ++ ", " ++
            value_ref.name ++ "))")), t)
  | .between col lo hi dmp, t =>
    match any_ref t col none dmp false with
    | (.error e, t) => (.error e, t)
    | (.ok column_ref, t) =>
      match any_ref t col (some lo) dmp false with
      | (.error e, t) => (.error e, t)
      | (.ok lower_ref, t) =>
        match any_ref t col (some hi) dmp false with
        | (.error e, t) => (.error e, t)
        | (.ok upper_ref, t) =>
          if is_empty lower_ref || is_empty upper_ref then
            let t := pop_refs t [column_ref, lower_ref, upper_ref]
            (.error (.invalidCondition ("Condition <" ++
              reprCond (.between col lo hi dmp) ++ "> includes the value None.")), t)
          else
            (.ok (some ("(" ++ column_ref.name ++ " BETWEEN " ++ lower_ref.name ++
              " AND " ++ upper_ref.name ++ ")")), t)
  | .contains col v dmp, t =>
    match any_ref t col none dmp false with
    | (.error e, t) => (.error e, t)
    | (.ok column_ref, t) =>
      match any_ref t col (some v) dmp true with
      | (.error e, t) => (.error e, t)
      | (.ok value_ref, t) =>
        if is_empty value_ref then
          let t := pop_refs t [column_ref, value_ref]
          (.error (.invalidCondition ("Condition <" ++
            reprCond (.contains col v dmp) ++ "> is against the value None.")), t)
        else
          (.ok (some ("(contains(" ++ column_ref.name ++ ", " ++
            value_ref.name ++ "))")), t)
  | .isin col vs dmp, t =>
    if vs.isEmpty then
      (.error (.invalidCondition ("Condition <" ++ reprCond (.isin col vs dmp) ++
        "> is missing values.")), t)
    else
      match inLoop col dmp ("Condition <" ++ reprCond (.isin col vs dmp) ++
          "> includes the value None.") t vs [] with
      | (.error e, t) => (.error e, t)
      | (.ok value_refs, t) =>
        match any_ref t col none dmp false with
        | (.error e, t) => (.error e, t)
        | (.ok column_ref, t) =>
          (.ok (some ("(" ++ column_ref.name ++ " IN (" ++
            String.intercalate ", " (value_refs.map Reference.name) ++ "))")), t)

/-- `[c.render(renderer) for c in self.values]`. -/
def renderList : List BaseCondition → ReferenceTracker →
    Except BloopError (List (Option String)) × ReferenceTracker
  | [], t => (.ok [], t)
  | c :: rest, t =>
    match renderCond c t with
    | (.error e, t) => (.error e, t)
    | (.ok r, t) =>
      match renderList rest t with
      | (.error e, t) => (.error e, t)
      | (.ok rs, t) => (.ok (r :: rs), t)

end

/-- Column set membership (`column in included`, `c not in obj.Meta.keys`).
Python resolves this through object identity hashing
(`ComparisonMixin.__hash__ = object.__hash__`); distinct columns are told
apart by their identifying fields here. -/
def columnBeq (a b : Column) : Bool :=
  a.dynamo_name == b.dynamo_name && a.model_name == b.model_name &&
    a.model == b.model && a.path == b.path

def columnMem (c : Column) (l : List Column) : Bool :=
  l.any (columnBeq c)

/-- Lexicographic order on code points (Python `str` comparison, the order
`sorted(..., key=lambda c: c.dynamo_name)` uses). -/
def charListLe : List Char → List Char → Bool
  | [], _ => true
  | _ :: _, [] => false
  | a :: as_, b :: bs =>
    if a.toNat < b.toNat then true
    else if b.toNat < a.toNat then false
    else charListLe as_ bs

def strLe (a b : String) : Bool :=
  charListLe a.data b.data

/-- Insert a later element after every already-placed element whose key is
`≤`, so equal keys keep their original order (stability of `sorted`). -/
def insertByName (c : Column) : List Column → List Column
  | [] => [c]
  | x :: xs =>
    if strLe x.dynamo_name c.dynamo_name then x :: insertByName c xs
    else c :: x :: xs

/-- Python's stable `sorted(columns, key=lambda c: c.dynamo_name)`. -/
def sortedByDynamoName (l : List Column) : List Column :=
  l.foldl (fun acc c => insertByName c acc) []

/-- `Meta` of a model (`obj.Meta.columns` / `obj.Meta.keys`; modelled from
their use in `conditions.py` — `models.py` builds them). -/
structure ModelMeta where
  columns : List Column
  keys : List Column

/-- A model instance together with its change-tracking entry.  The
process-wide `_obj_tracking` weak dictionary is keyed by object identity,
so its entry for `obj` (`marked`, `snapshot`) is carried on the object
here. -/
structure Obj where
  meta : ModelMeta
  /-- attribute dict: `getattr(obj, model_name, None)` reads it. -/
  values : List (String × CVal)
  /-- `_obj_tracking[obj]["marked"]`. -/
  marked : List Column
  /-- `_obj_tracking[obj]["snapshot"]`. -/
  snapshot : Option BaseCondition

/-- `getattr(obj, name, None)`. -/
def pyGetattr (obj : Obj) (name : String) : CVal :=
  (alookup obj.values name).getD (.lit none)

/-- `get_marked(obj)` (returns a copy of the marked set; copying is
unobservable here). -/
def get_marked (obj : Obj) : List Column :=
  obj.marked

/-- The loop of `get_snapshot`'s default-snapshot synthesis:
`snapshot &= column.is_(None)` over the sorted columns (`is_` is `__eq__`,
so `check_support` can raise; `__iand__` builds the same tree `__and__`
does). -/
def snapshotLoop : BaseCondition → List Column → Except BloopError BaseCondition
  | snapshot, [] => .ok snapshot
  | snapshot, c :: rest =>
    match mixinComparison c "==" (.lit none) with
    | .error e => .error e
    | .ok cond => snapshotLoop (cand snapshot cond) rest

/-- `get_snapshot(obj)` (the write-back of the synthesized default to the
cache is unobservable to the render and omitted). -/
def get_snapshot (obj : Obj) : Except BloopError BaseCondition :=
  match obj.snapshot with
  | some s => .ok s
  | none => snapshotLoop .empty (sortedByDynamoName obj.meta.columns)

/-- The renderer's per-session state (`ConditionRenderer.__init__`;
expression values are `Option String` because a fragment slot can be
assigned a `None` render). -/
structure ConditionRenderer where
  refs : ReferenceTracker
  expressions : List (String × Option String)

def initRenderer (e : Engine) : ConditionRenderer :=
  { refs := initTracker e, expressions := [] }

/-- `render_condition_expression`. -/
def render_condition_expression (r : ConditionRenderer) (condition : BaseCondition) :
    Except BloopError Unit × ConditionRenderer :=
  match renderCond condition r.refs with
  | (.error e, t) => (.error e, { r with refs := t })
  | (.ok s, t) =>
    (.ok (), { refs := t,
               expressions := dictInsert r.expressions "ConditionExpression" s })

/-- `render_filter_expression`. -/
def render_filter_expression (r : ConditionRenderer) (condition : BaseCondition) :
    Except BloopError Unit × ConditionRenderer :=
  match renderCond condition r.refs with
  | (.error e, t) => (.error e, { r with refs := t })
  | (.ok s, t) =>
    (.ok (), { refs := t,
               expressions := dictInsert r.expressions "FilterExpression" s })

/-- `render_key_expression`. -/
def render_key_expression (r : ConditionRenderer) (condition : BaseCondition) :
    Except BloopError Unit × ConditionRenderer :=
  match renderCond condition r.refs with
  | (.error e, t) => (.error e, { r with refs := t })
  | (.ok s, t) =>
    (.ok (), { refs := t,
               expressions := dictInsert r.expressions "KeyConditionExpression" s })

/-- The loop of `render_projection_expression` (skip already-included
columns, collect name refs). -/
def projLoop : ReferenceTracker → List Column → List Column → List String →
    Except BloopError (List String) × ReferenceTracker
  | t, [], _, acc => (.ok acc, t)
  | t, column :: rest, included, acc =>
    if columnMem column included then projLoop t rest included acc
    else
      match any_ref t column none false false with
      | (.error e, t) => (.error e, t)
      | (.ok ref, t) => projLoop t rest (included ++ [column]) (acc ++ [ref.name])

/-- `render_projection_expression`. -/
def render_projection_expression (r : ConditionRenderer) (columns : List Column) :
    Except BloopError Unit × ConditionRenderer :=
  match projLoop r.refs columns [] [] with
  | (.error e, t) => (.error e, { r with refs := t })
  | (.ok ref_names, t) =>
    (.ok (), { refs := t,
               expressions := dictInsert r.expressions "ProjectionExpression"
                 (some (String.intercalate ", " ref_names)) })

/-- The per-column loop of `render_update_expression`: a name ref and a
value ref for the current in-memory value; an empty value ref is released
and recorded under REMOVE, otherwise `name=value` goes under SET. -/
def updateLoop (obj : Obj) : ReferenceTracker → List Column → List String → List String →
    Except BloopError (List String × List String) × ReferenceTracker
  | t, [], sets, removes => (.ok (sets, removes), t)
  | t, column :: rest, sets, removes =>
    match any_ref t column none false false with
    | (.error e, t) => (.error e, t)
    | (.ok nameRef, t) =>
      match any_ref t column (some (pyGetattr obj column.model_name)) false false with
      | (.error e, t) => (.error e, t)
      | (.ok valueRef, t) =>
        if is_empty valueRef then
          let t := pop_refs t [valueRef]
          updateLoop obj t rest sets (removes ++ [nameRef.name])
        else
          updateLoop obj t rest (sets ++ [nameRef.name ++ "=" ++ valueRef.name]) removes

/-- Python `str.strip()` (only spaces occur in update expressions). -/
def pyStrip (s : String) : String :=
  (((s.data.dropWhile (· == ' ')).reverse.dropWhile (· == ' ')).reverse).asString

/-- `render_update_expression(obj)`: marked non-key columns, sorted by
wire name, rendered into `SET`/`REMOVE` clauses. -/
def render_update_expression (r : ConditionRenderer) (obj : Obj) :
    Except BloopError Unit × ConditionRenderer :=
  let cols := sortedByDynamoName
    ((get_marked obj).filter (fun c => !(columnMem c obj.meta.keys)))
  match updateLoop obj r.refs cols [] [] with
  | (.error e, t) => (.error e, { r with refs := t })
  | (.ok (sets, removes), t) =>
    let expression :=
      (if sets.isEmpty then "" else "SET " ++ String.intercalate ", " sets) ++
      (if removes.isEmpty then "" else " REMOVE " ++ String.intercalate ", " removes)
    if expression == "" then (.ok (), { r with refs := t })
    else
      (.ok (), { refs := t,
                 expressions := dictInsert r.expressions "UpdateExpression"
                   (some (pyStrip expression)) })

/-- `(condition or Condition()) & (get_snapshot(obj) if atomic else
Condition())` — the merged effective condition. -/
def effectiveCondition (obj : Option Obj) (condition : Option BaseCondition)
    (atomic : Bool) : Except BloopError BaseCondition :=
  let base := match condition with
    | some c => if condTruthy c then c else .empty
    | none => .empty
  if atomic then
    match obj with
    | some o =>
      match get_snapshot o with
      | .error e => .error e
      | .ok snap => .ok (cand base snap)
    | none => .error .pyError
  else .ok (cand base .empty)

/-- `ConditionRenderer.render`: the guard, then the five optional
fragments in source order. -/
def ConditionRenderer.render (r : ConditionRenderer) (obj : Option Obj)
    (condition : Option BaseCondition) (atomic update : Bool)
    (filter : Option BaseCondition) (projection : Option (List Column))
    (key : Option BaseCondition) : Except BloopError Unit × ConditionRenderer :=
  if (atomic || update) && obj.isNone then
    (.error (.invalidCondition
      "An object is required to render atomic conditions or updates without an object."), r)
  else
    match (match filter with
           | some f => if condTruthy f then render_filter_expression r f else (.ok (), r)
           | none => (.ok (), r)) with
    | (.error e, r) => (.error e, r)
    | (.ok _, r) =>
      match (match projection with
             | some cols => if !cols.isEmpty then render_projection_expression r cols
                            else (.ok (), r)
             | none => (.ok (), r)) with
      | (.error e, r) => (.error e, r)
      | (.ok _, r) =>
        match (match key with
               | some k => if condTruthy k then render_key_expression r k else (.ok (), r)
               | none => (.ok (), r)) with
        | (.error e, r) => (.error e, r)
        | (.ok _, r) =>
          match effectiveCondition obj condition atomic with
          | .error e => (.error e, r)
          | .ok cond =>
            match (if condTruthy cond then render_condition_expression r cond
                   else (.ok (), r)) with
            | (.error e, r) => (.error e, r)
            | (.ok _, r) =>
              if update then
                match obj with
                | some o => render_update_expression r o
                | none => (.error .pyError, r)
              else (.ok (), r)

/-- The bundle `ConditionRenderer.rendered` assembles; an empty list
encodes a key omitted from the wire payload. -/
structure Rendered where
  expressions : List (String × String)
  attr_names : List (String × String)
  attr_values : List (String × Option String)

/-- `ConditionRenderer.rendered` (drops `None`-valued expression slots and
attaches the two placeholder tables only if non-empty — encoded by `[]`). -/
def ConditionRenderer.rendered (r : ConditionRenderer) : Rendered :=
  { expressions := r.expressions.filterMap (fun p => p.2.map (fun v => (p.1, v))),
    attr_names := r.refs.attr_names,
    attr_values := r.refs.attr_values }

/-- The module-level `render(engine, ...)` entry point. -/
def render (engine : Engine) (obj : Option Obj) (condition : Option BaseCondition)
    (atomic update : Bool) (filter : Option BaseCondition)
    (projection : Option (List Column)) (key : Option BaseCondition) :
    Except BloopError Rendered :=
  match (initRenderer engine).render obj condition atomic update filter projection key with
  | (.error e, _) => .error e
  | (.ok _, r) => .ok r.rendered

/-! Injectivity of the decimal printer behind the placeholder strings. -/

/-- Value of a decimal digit character as produced by `Nat.digitChar` on
inputs below 10. -/
def digitVal (c : Char) : Nat :=
  if c = '0' then 0 else if c = '1' then 1 else if c = '2' then 2
  else if c = '3' then 3 else if c = '4' then 4 else if c = '5' then 5
  else if c = '6' then 6 else if c = '7' then 7 else if c = '8' then 8 else 9

theorem digitVal_digitChar (m : Nat) (h : m < 10) :
    digitVal (Nat.digitChar m) = m := by
  interval_cases m <;> rfl

/-- Decimal value of a digit string. -/
def digitsVal (l : List Char) : Nat :=
  l.foldl (fun a c => a * 10 + digitVal c) 0

theorem toDigitsCore_acc (fuel : Nat) :
    ∀ (n : Nat) (acc : List Char),
      Nat.toDigitsCore 10 fuel n acc = Nat.toDigitsCore 10 fuel n [] ++ acc := by
  induction fuel with
  | zero => intro n acc; simp [Nat.toDigitsCore]
  | succ fuel ih =>
    intro n acc
    simp only [Nat.toDigitsCore]
    by_cases h : n / 10 = 0
    · simp [h]
    · simp only [h, if_false]
      rw [ih (n / 10) (Nat.digitChar (n % 10) :: acc),
        ih (n / 10) [Nat.digitChar (n % 10)], List.append_assoc]
      rfl

theorem digitsVal_toDigitsCore (fuel : Nat) :
    ∀ n : Nat, n < fuel → digitsVal (Nat.toDigitsCore 10 fuel n []) = n := by
  induction fuel with
  | zero => intro n h; omega
  | succ fuel ih =>
    intro n h
    simp only [Nat.toDigitsCore]
    by_cases h0 : n / 10 = 0
    · have hn : n < 10 := by omega
      have hmod : n % 10 = n := Nat.mod_eq_of_lt hn
      simp [h0, digitsVal, hmod, digitVal_digitChar n hn]
    · simp only [h0, if_false]
      rw [toDigitsCore_acc]
      have hdiv : n / 10 < fuel := by
        have h1 : n / 10 < n := Nat.div_lt_self (by omega) (by omega)
        omega
      have hrec := ih (n / 10) hdiv
      simp only [digitsVal] at hrec ⊢
      rw [List.foldl_append, hrec]
      simp [digitVal_digitChar (n % 10) (Nat.mod_lt n (by omega))]
      omega

theorem digitsVal_repr (n : Nat) : digitsVal (Nat.repr n).data = n := by
  have : (Nat.repr n).data = Nat.toDigitsCore 10 (n + 1) n [] := rfl
  rw [this]
  exact digitsVal_toDigitsCore (n + 1) n (Nat.lt_succ_self n)

theorem repr_injective {m n : Nat} (h : Nat.repr m = Nat.repr n) : m = n := by
  have := congrArg (fun s => digitsVal s.data) h
  simpa [digitsVal_repr] using this

theorem string_data_append (a b : String) : (a ++ b).data = a.data ++ b.data := by
  cases a; cases b; rfl

theorem nref_data (i : Nat) : (nref i).data = '#' :: 'n' :: (Nat.repr i).data := by
  simp [nref, string_data_append]

theorem vref_data (i : Nat) : (vref i).data = ':' :: 'v' :: (Nat.repr i).data := by
  simp [vref, string_data_append]

theorem nref_inj {i j : Nat} (h : nref i = nref j) : i = j := by
  have hd := congrArg String.data h
  rw [nref_data, nref_data] at hd
  have : (Nat.repr i).data = (Nat.repr j).data := by
    simpa using hd
  have hr : Nat.repr i = Nat.repr j := by
    have hi : Nat.repr i = ⟨(Nat.repr i).data⟩ := rfl
    have hj : Nat.repr j = ⟨(Nat.repr j).data⟩ := rfl
    rw [hi, hj, this]
  exact repr_injective hr

theorem vref_inj {i j : Nat} (h : vref i = vref j) : i = j := by
  have hd := congrArg String.data h
  rw [vref_data, vref_data] at hd
  have : (Nat.repr i).data = (Nat.repr j).data := by
    simpa using hd
  have hr : Nat.repr i = Nat.repr j := by
    have hi : Nat.repr i = ⟨(Nat.repr i).data⟩ := rfl
    have hj : Nat.repr j = ⟨(Nat.repr j).data⟩ := rfl
    rw [hi, hj, this]
  exact repr_injective hr

theorem nref_ne_vref (i j : Nat) : nref i ≠ vref j := by
  intro h
  have hd := congrArg String.data h
  rw [nref_data, vref_data] at hd
  simp at hd

theorem vref_ne_nref (i j : Nat) : vref i ≠ nref j := fun h => nref_ne_vref j i h.symm

/-! Association-list (Python dict) lemmas. -/

variable {κ : Type} [DecidableEq κ] {α : Type}

theorem alookup_ne_of_none {l : List (κ × α)} {k : κ}
    (h : alookup l k = none) : ∀ p ∈ l, p.1 ≠ k := by
  induction l with
  | nil => intro p hp; cases hp
  | cons q rest ih =>
    obtain ⟨a, b⟩ := q
    intro p hp
    by_cases ha : a = k
    · simp [alookup, ha] at h
    · rcases List.mem_cons.mp hp with rfl | hp
      · exact ha
      · exact ih (by simpa [alookup, ha] using h) p hp

theorem alookup_append (l l' : List (κ × α)) (k : κ) :
    alookup (l ++ l') k =
      match alookup l k with
      | some v => some v
      | none => alookup l' k := by
  induction l with
  | nil => simp [alookup]
  | cons q rest ih =>
    obtain ⟨a, b⟩ := q
    by_cases ha : a = k
    · simp [alookup, ha]
    · simpa [alookup, ha] using ih

theorem dictInsert_of_none {l : List (κ × α)} {k : κ} (v : α)
    (h : alookup l k = none) : dictInsert l k v = l ++ [(k, v)] := by
  induction l with
  | nil => rfl
  | cons q rest ih =>
    obtain ⟨a, b⟩ := q
    by_cases ha : a = k
    · simp [alookup, ha] at h
    · have := ih (by simpa [alookup, ha] using h)
      simp [dictInsert, ha, this]

theorem alookup_dictInsert_self (l : List (κ × α)) (k : κ) (v : α) :
    alookup (dictInsert l k v) k = some v := by
  induction l with
  | nil => simp [dictInsert, alookup]
  | cons q rest ih =>
    obtain ⟨a, b⟩ := q
    by_cases ha : a = k
    · simp [dictInsert, ha, alookup]
    · simp [dictInsert, ha, alookup, ih]

theorem alookup_dictInsert_ne (l : List (κ × α)) {k k' : κ} (v : α)
    (h : k' ≠ k) : alookup (dictInsert l k v) k' = alookup l k' := by
  induction l with
  | nil => simp [dictInsert, alookup, Ne.symm h]
  | cons q rest ih =>
    obtain ⟨a, b⟩ := q
    by_cases ha : a = k
    · subst ha
      simp [dictInsert, alookup, Ne.symm h]
    · by_cases ha' : a = k'
      · simp [dictInsert, ha, alookup, ha', h]
      · simp [dictInsert, ha, alookup, ha', ih]

theorem alookup_dictRemove_self (l : List (κ × α)) (k : κ) :
    alookup (dictRemove l k) k = none := by
  induction l with
  | nil => rfl
  | cons q rest ih =>
    obtain ⟨a, b⟩ := q
    by_cases ha : a = k
    · simp [dictRemove, ha, ih]
    · simp [dictRemove, ha, alookup, ih]

theorem alookup_dictRemove_ne (l : List (κ × α)) {k k' : κ}
    (h : k' ≠ k) : alookup (dictRemove l k) k' = alookup l k' := by
  induction l with
  | nil => rfl
  | cons q rest ih =>
    obtain ⟨a, b⟩ := q
    by_cases ha : a = k
    · subst ha
      simp [dictRemove, alookup, Ne.symm h, ih]
    · by_cases ha' : a = k'
      · simp [dictRemove, ha, alookup, ha', h]
      · simp [dictRemove, ha, alookup, ha', ih]

theorem dictRemove_of_none {l : List (κ × α)} {k : κ}
    (h : alookup l k = none) : dictRemove l k = l := by
  induction l with
  | nil => rfl
  | cons q rest ih =>
    obtain ⟨a, b⟩ := q
    by_cases ha : a = k
    · simp [alookup, ha] at h
    · have := ih (by simpa [alookup, ha] using h)
      simp [dictRemove, ha, this]

theorem dictRemove_append_fresh {l : List (κ × α)} {k : κ} (v : α)
    (h : alookup l k = none) : dictRemove (l ++ [(k, v)]) k = l := by
  induction l with
  | nil => simp [dictRemove]
  | cons q rest ih =>
    obtain ⟨a, b⟩ := q
    by_cases ha : a = k
    · simp [alookup, ha] at h
    · have := ih (by simpa [alookup, ha] using h)
      simp [dictRemove, ha, this]

/-! Characterizations of the tracker operations, and the session invariant. -/

theorem nref_ne_of_ne {i j : Nat} (h : i ≠ j) : nref i ≠ nref j :=
  fun hh => h (nref_inj hh)

theorem vref_ne_of_ne {i j : Nat} (h : i ≠ j) : vref i ≠ vref j :=
  fun hh => h (vref_inj hh)

theorem name_ref_dedup {t : ReferenceTracker} {s r : String}
    (hidx : alookup t.name_attr_index s = some r) :
    name_ref t s = (r, { t with counts := dictInsert t.counts r (countGet t r + 1) }) := by
  simp [name_ref, hidx]

theorem name_ref_fresh {t : ReferenceTracker} {s : String}
    (hidx : alookup t.name_attr_index s = none) :
    name_ref t s = (nref t.next_index,
      { t with next_index := t.next_index + 1,
               attr_names := dictInsert t.attr_names (nref t.next_index) s,
               name_attr_index := dictInsert t.name_attr_index s (nref t.next_index),
               counts := dictInsert t.counts (nref t.next_index)
                 (countGet t (nref t.next_index) + 1) }) := by
  simp [name_ref, hidx, takeIndex, countGet]

/-- The dump `_value_ref` performs (`none` = the lookup Python would fail). -/
def dumpResult (t : ReferenceTracker) (col : Column) (v : Option String)
    (dumped inner : Bool) : Option (Option String) :=
  if dumped then some v
  else
    match tdescend col.typedef col.path with
    | none => none
    | some td =>
      match (if inner then td.inner else some td) with
      | none => none
      | some td2 => some (t.engine.dump td2 v)

theorem value_ref_ok {t : ReferenceTracker} {col : Column} {v : Option String}
    {dumped inner : Bool} {w : Option String}
    (hw : dumpResult t col v dumped inner = some w) :
    value_ref t col v dumped inner = (.ok (vref t.next_index, w),
      { t with next_index := t.next_index + 1,
               attr_values := dictInsert t.attr_values (vref t.next_index) w,
               counts := dictInsert t.counts (vref t.next_index)
                 (countGet t (vref t.next_index) + 1) }) := by
  cases dumped with
  | true =>
    simp only [dumpResult, if_true] at hw
    cases hw
    simp [value_ref, takeIndex, countGet]
  | false =>
    simp only [dumpResult, Bool.false_eq_true, if_false] at hw
    simp only [value_ref, takeIndex, Bool.false_eq_true, if_false]
    cases htd : tdescend col.typedef col.path with
    | none => simp only [htd] at hw; cases hw
    | some td =>
      simp only [htd] at hw
      cases hin : (if inner = true then td.inner else some td) with
      | none => simp only [hin] at hw; cases hw
      | some td2 =>
        simp only [hin] at hw
        simp only [hin]
        cases hw
        simp [countGet]

theorem value_ref_err {t : ReferenceTracker} {col : Column} {v : Option String}
    {dumped inner : Bool}
    (hw : dumpResult t col v dumped inner = none) :
    value_ref t col v dumped inner =
      (.error .pyError, { t with next_index := t.next_index + 1 }) := by
  cases dumped with
  | true => simp [dumpResult] at hw
  | false =>
    simp only [dumpResult, Bool.false_eq_true, if_false] at hw
    simp only [value_ref, takeIndex, Bool.false_eq_true, if_false]
    cases htd : tdescend col.typedef col.path with
    | none => simp only [htd]
    | some td =>
      simp only [htd] at hw ⊢
      cases hin : (if inner = true then td.inner else some td) with
      | none => simp only [hin]
      | some td2 => simp only [hin] at hw; cases hw

theorem popRef_zero {t : ReferenceTracker} {ref : Reference}
    (h : countGet t ref.name < 1) : popRef t ref = t := by
  simp [popRef, h]

theorem popRef_many {t : ReferenceTracker} {ref : Reference}
    (h : 1 < countGet t ref.name) :
    popRef t ref =
      { t with counts := dictInsert t.counts ref.name (countGet t ref.name - 1) } := by
  have h1 : ¬ countGet t ref.name < 1 := by omega
  simp [popRef, h1, h]

theorem popRef_last_value {t : ReferenceTracker} {ref : Reference}
    (h : countGet t ref.name = 1) (hty : ref.type = "value") :
    popRef t ref =
      { t with counts := dictInsert t.counts ref.name (countGet t ref.name - 1),
               attr_values := dictRemove t.attr_values ref.name } := by
  have h1 : ¬ countGet t ref.name < 1 := by omega
  have h2 : ¬ countGet t ref.name > 1 := by omega
  simp [popRef, h1, h2, hty]

theorem popRef_last_name {t : ReferenceTracker} {ref : Reference} {s : String}
    (h : countGet t ref.name = 1) (hty : ref.type ≠ "value")
    (hn : alookup t.attr_names ref.name = some s) :
    popRef t ref =
      { t with counts := dictInsert t.counts ref.name (countGet t ref.name - 1),
               attr_names := dictRemove t.attr_names ref.name,
               name_attr_index := dictRemove t.name_attr_index s } := by
  have h1 : ¬ countGet t ref.name < 1 := by omega
  have h2 : ¬ countGet t ref.name > 1 := by omega
  have hty' : (ref.type == "value") = false := by
    simpa using hty
  simp [popRef, h1, h2, hty', hn]

/-- Invariant of every tracker state reachable in a render session. -/
structure TrackerInv (t : ReferenceTracker) : Prop where
  /-- Counts never go negative. -/
  nonneg : ∀ r, 0 ≤ countGet t r
  /-- A placeholder appears in `attr_names` or `attr_values` iff its
  reference count is positive. -/
  mem_iff : ∀ r, ((alookup t.attr_names r).isSome ∨ (alookup t.attr_values r).isSome)
    ↔ 1 ≤ countGet t r
  /-- `attr_names` and `name_attr_index` are inverse mappings. -/
  paired : ∀ s r, alookup t.name_attr_index s = some r ↔ alookup t.attr_names r = some s
  /-- Name-table keys are `#n<j>` placeholders with spent indices. -/
  namekeys : ∀ r, (alookup t.attr_names r).isSome → ∃ j, j < t.next_index ∧ r = nref j
  /-- Value-table keys are `:v<j>` placeholders with spent indices. -/
  valkeys : ∀ r, (alookup t.attr_values r).isSome → ∃ j, j < t.next_index ∧ r = vref j

theorem tinv_init (e : Engine) : TrackerInv (initTracker e) := by
  constructor <;> intro r <;> simp [initTracker, alookup, countGet]

theorem TrackerInv.fresh_name {t : ReferenceTracker} (h : TrackerInv t) {i : Nat}
    (hi : t.next_index ≤ i) : alookup t.attr_names (nref i) = none := by
  cases hcase : alookup t.attr_names (nref i) with
  | none => rfl
  | some s =>
    obtain ⟨j, hj, hrj⟩ := h.namekeys (nref i) (by simp [hcase])
    exact absurd (nref_inj hrj) (by omega)

theorem TrackerInv.fresh_value {t : ReferenceTracker} (h : TrackerInv t) {i : Nat}
    (hi : t.next_index ≤ i) : alookup t.attr_values (vref i) = none := by
  cases hcase : alookup t.attr_values (vref i) with
  | none => rfl
  | some s =>
    obtain ⟨j, hj, hrj⟩ := h.valkeys (vref i) (by simp [hcase])
    exact absurd (vref_inj hrj) (by omega)

theorem TrackerInv.fresh_count_n {t : ReferenceTracker} (h : TrackerInv t) {i : Nat}
    (hi : t.next_index ≤ i) : countGet t (nref i) = 0 := by
  by_contra hne
  have h0 := h.nonneg (nref i)
  have h1 : 1 ≤ countGet t (nref i) := by omega
  rcases (h.mem_iff (nref i)).mpr h1 with hn | hv
  · rw [h.fresh_name hi] at hn; simp at hn
  · cases hcase : alookup t.attr_values (nref i) with
    | none => rw [hcase] at hv; simp at hv
    | some w =>
      obtain ⟨j, hj, hrj⟩ := h.valkeys (nref i) (by simp [hcase])
      exact nref_ne_vref i j hrj

theorem TrackerInv.fresh_count_v {t : ReferenceTracker} (h : TrackerInv t) {i : Nat}
    (hi : t.next_index ≤ i) : countGet t (vref i) = 0 := by
  by_contra hne
  have h0 := h.nonneg (vref i)
  have h1 : 1 ≤ countGet t (vref i) := by omega
  rcases (h.mem_iff (vref i)).mpr h1 with hn | hv
  · cases hcase : alookup t.attr_names (vref i) with
    | none => rw [hcase] at hn; simp at hn
    | some w =>
      obtain ⟨j, hj, hrj⟩ := h.namekeys (vref i) (by simp [hcase])
      exact vref_ne_nref i j hrj
  · rw [h.fresh_value hi] at hv; simp at hv

theorem TrackerInv.fresh_index {t : ReferenceTracker} (h : TrackerInv t) {s : String}
    {i : Nat} (hi : t.next_index ≤ i) :
    alookup t.name_attr_index s = some (nref i) → False := by
  intro hidx
  have := (h.paired s (nref i)).mp hidx
  rw [h.fresh_name hi] at this
  cases this

theorem isSome_of_dictRemove {κ : Type} [DecidableEq κ] {α : Type}
    {l : List (κ × α)} {k r : κ}
    (h : (alookup (dictRemove l k) r).isSome) : (alookup l r).isSome ∧ r ≠ k := by
  by_cases hr : r = k
  · subst hr; rw [alookup_dictRemove_self] at h; simp at h
  · rw [alookup_dictRemove_ne l hr] at h; exact ⟨h, hr⟩

theorem countGet_set (t : ReferenceTracker) (k : String) (c : Int) (r : String) :
    (alookup (dictInsert t.counts k c) r).getD 0 = if r = k then c else countGet t r := by
  by_cases hr : r = k
  · subst hr; simp [alookup_dictInsert_self]
  · simp [alookup_dictInsert_ne _ _ hr, countGet, hr]

theorem tinv_name_ref {t : ReferenceTracker} (h : TrackerInv t) (s : String) :
    TrackerInv (name_ref t s).2 := by
  cases hidx : alookup t.name_attr_index s with
  | some r =>
    rw [name_ref_dedup hidx]
    have hlive : alookup t.attr_names r = some s := (h.paired s r).mp hidx
    have hmem : 1 ≤ countGet t r := (h.mem_iff r).mp (Or.inl (by simp [hlive]))
    constructor
    · intro r'
      show 0 ≤ (alookup (dictInsert t.counts r (countGet t r + 1)) r').getD 0
      rw [countGet_set]
      by_cases hr : r' = r
      · simp [hr]; omega
      · simp [hr]; exact h.nonneg r'
    · intro r'
      show _ ↔ 1 ≤ (alookup (dictInsert t.counts r (countGet t r + 1)) r').getD 0
      rw [countGet_set]
      by_cases hr : r' = r
      · subst hr
        simp only [if_pos rfl]
        constructor
        · intro _; omega
        · intro _; exact Or.inl (by simp [hlive])
      · simp only [if_neg hr]
        exact h.mem_iff r'
    · exact h.paired
    · exact h.namekeys
    · exact h.valkeys
  | none =>
    rw [name_ref_fresh hidx]
    have hfn : alookup t.attr_names (nref t.next_index) = none :=
      h.fresh_name (Nat.le_refl _)
    have hfc : countGet t (nref t.next_index) = 0 :=
      h.fresh_count_n (Nat.le_refl _)
    constructor
    · intro r'
      show 0 ≤ (alookup (dictInsert t.counts (nref t.next_index)
        (countGet t (nref t.next_index) + 1)) r').getD 0
      rw [countGet_set]
      by_cases hr : r' = nref t.next_index
      · simp [hr]; omega
      · simp [hr]; exact h.nonneg r'
    · intro r'
      show ((alookup (dictInsert t.attr_names (nref t.next_index) s) r').isSome ∨
          (alookup t.attr_values r').isSome) ↔
        1 ≤ (alookup (dictInsert t.counts (nref t.next_index)
          (countGet t (nref t.next_index) + 1)) r').getD 0
      rw [countGet_set]
      by_cases hr : r' = nref t.next_index
      · subst hr
        simp [alookup_dictInsert_self, hfc]
      · rw [alookup_dictInsert_ne _ _ hr, if_neg hr]
        exact h.mem_iff r'
    · intro s' r'
      show alookup (dictInsert t.name_attr_index s (nref t.next_index)) s' = some r' ↔
        alookup (dictInsert t.attr_names (nref t.next_index) s) r' = some s'
      by_cases hs : s' = s
      · subst hs
        rw [alookup_dictInsert_self]
        by_cases hr : r' = nref t.next_index
        · subst hr; rw [alookup_dictInsert_self]; simp
        · rw [alookup_dictInsert_ne _ _ hr]
          constructor
          · intro hh
            exact absurd (Option.some.inj hh).symm hr
          · intro hh
            exact absurd hidx (by rw [(h.paired s' r').mpr hh]; simp)
      · rw [alookup_dictInsert_ne _ _ hs]
        by_cases hr : r' = nref t.next_index
        · subst hr
          rw [alookup_dictInsert_self]
          constructor
          · intro hh
            have := (h.paired s' _).mp hh
            rw [hfn] at this; cases this
          · intro hh
            exact absurd (Option.some.inj hh) (fun hh2 => hs hh2.symm)
        · rw [alookup_dictInsert_ne _ _ hr]
          exact h.paired s' r'
    · intro r' hr'
      show ∃ j, j < t.next_index + 1 ∧ r' = nref j
      by_cases hr : r' = nref t.next_index
      · exact ⟨t.next_index, by omega, hr⟩
      · rw [alookup_dictInsert_ne _ _ hr] at hr'
        obtain ⟨j, hj, hrj⟩ := h.namekeys r' hr'
        exact ⟨j, by omega, hrj⟩
    · intro r' hr'
      obtain ⟨j, hj, hrj⟩ := h.valkeys r' hr'
      exact ⟨j, Nat.lt_succ_of_lt hj, hrj⟩

theorem tinv_value_ref {t : ReferenceTracker} (h : TrackerInv t) {col : Column}
    {v : Option String} {dumped inner : Bool} {ref : String × Option String}
    {t' : ReferenceTracker}
    (hres : value_ref t col v dumped inner = (.ok ref, t')) :
    TrackerInv t' := by
  cases hw : dumpResult t col v dumped inner with
  | none =>
    rw [value_ref_err hw] at hres
    exact absurd (congrArg Prod.fst hres) (by simp)
  | some w =>
    rw [value_ref_ok hw] at hres
    have hres2 := congrArg Prod.snd hres
    simp only at hres2
    subst hres2
    have hfv : alookup t.attr_values (vref t.next_index) = none :=
      h.fresh_value (Nat.le_refl _)
    have hfc : countGet t (vref t.next_index) = 0 :=
      h.fresh_count_v (Nat.le_refl _)
    constructor
    · intro r'
      show 0 ≤ (alookup (dictInsert t.counts (vref t.next_index)
        (countGet t (vref t.next_index) + 1)) r').getD 0
      rw [countGet_set]
      by_cases hr : r' = vref t.next_index
      · simp [hr]; omega
      · simp [hr]; exact h.nonneg r'
    · intro r'
      show ((alookup t.attr_names r').isSome ∨
          (alookup (dictInsert t.attr_values (vref t.next_index) w) r').isSome) ↔
        1 ≤ (alookup (dictInsert t.counts (vref t.next_index)
          (countGet t (vref t.next_index) + 1)) r').getD 0
      rw [countGet_set]
      by_cases hr : r' = vref t.next_index
      · subst hr
        simp [alookup_dictInsert_self, hfc]
      · rw [alookup_dictInsert_ne _ _ hr, if_neg hr]
        exact h.mem_iff r'
    · exact h.paired
    · intro r' hr'
      obtain ⟨j, hj, hrj⟩ := h.namekeys r' hr'
      exact ⟨j, Nat.lt_succ_of_lt hj, hrj⟩
    · intro r' hr'
      show ∃ j, j < t.next_index + 1 ∧ r' = vref j
      by_cases hr : r' = vref t.next_index
      · exact ⟨t.next_index, by omega, hr⟩
      · rw [alookup_dictInsert_ne _ _ hr] at hr'
        obtain ⟨j, hj, hrj⟩ := h.valkeys r' hr'
        exact ⟨j, by omega, hrj⟩

/-- Consistency of a `Reference` with the tracker it is released into:
true of every reference `any_ref` handed out against the current session
(a live value-typed ref names a value-table entry; a live name-typed ref
names a name-table entry). -/
def RefOk (t : ReferenceTracker) (ref : Reference) : Prop :=
  1 ≤ countGet t ref.name →
    (ref.type = "value" → (alookup t.attr_values ref.name).isSome) ∧
    (ref.type ≠ "value" → (alookup t.attr_names ref.name).isSome)

theorem TrackerInv.not_both {t : ReferenceTracker} (h : TrackerInv t) (r : String) :
    (alookup t.attr_names r).isSome → (alookup t.attr_values r).isSome → False := by
  intro hn hv
  obtain ⟨j, _, rfl⟩ := h.namekeys r hn
  obtain ⟨j2, _, hj2⟩ := h.valkeys _ hv
  exact nref_ne_vref j j2 hj2

theorem tinv_popRef {t : ReferenceTracker} (h : TrackerInv t) {ref : Reference}
    (hok : RefOk t ref) : TrackerInv (popRef t ref) := by
  by_cases h0 : countGet t ref.name < 1
  · rw [popRef_zero h0]; exact h
  · by_cases h1 : 1 < countGet t ref.name
    · rw [popRef_many h1]
      constructor
      · intro r'
        show 0 ≤ (alookup (dictInsert t.counts ref.name (countGet t ref.name - 1)) r').getD 0
        rw [countGet_set]
        by_cases hr : r' = ref.name
        · simp [hr]; omega
        · simp [hr]; exact h.nonneg r'
      · intro r'
        show _ ↔ 1 ≤ (alookup (dictInsert t.counts ref.name (countGet t ref.name - 1)) r').getD 0
        rw [countGet_set]
        by_cases hr : r' = ref.name
        · subst hr
          simp only [if_pos rfl]
          constructor
          · intro _; omega
          · intro _; exact (h.mem_iff ref.name).mpr (by omega)
        · simp only [if_neg hr]
          exact h.mem_iff r'
      · exact h.paired
      · exact h.namekeys
      · exact h.valkeys
    · have hc1 : countGet t ref.name = 1 := by omega
      by_cases hty : ref.type = "value"
      · have hvs : (alookup t.attr_values ref.name).isSome := ((hok (by omega)).1) hty
        have hns : alookup t.attr_names ref.name = none := by
          cases hcase : alookup t.attr_names ref.name with
          | none => rfl
          | some s2 => exact absurd hvs (fun hv => h.not_both ref.name (by simp [hcase]) hv)
        rw [popRef_last_value hc1 hty]
        constructor
        · intro r'
          show 0 ≤ (alookup (dictInsert t.counts ref.name (countGet t ref.name - 1)) r').getD 0
          rw [countGet_set]
          by_cases hr : r' = ref.name
          · simp [hr]; omega
          · simp [hr]; exact h.nonneg r'
        · intro r'
          show ((alookup t.attr_names r').isSome ∨
              (alookup (dictRemove t.attr_values ref.name) r').isSome) ↔
            1 ≤ (alookup (dictInsert t.counts ref.name (countGet t ref.name - 1)) r').getD 0
          rw [countGet_set]
          by_cases hr : r' = ref.name
          · subst hr
            rw [alookup_dictRemove_self, hns]
            simp [hc1]
          · rw [alookup_dictRemove_ne _ hr, if_neg hr]
            exact h.mem_iff r'
        · exact h.paired
        · exact h.namekeys
        · intro r' hr'
          obtain ⟨hv', -⟩ := isSome_of_dictRemove hr'
          exact h.valkeys r' hv'
      · have hns : (alookup t.attr_names ref.name).isSome := ((hok (by omega)).2) hty
        obtain ⟨seg, hseg⟩ := Option.isSome_iff_exists.mp hns
        have hvs : alookup t.attr_values ref.name = none := by
          cases hcase : alookup t.attr_values ref.name with
          | none => rfl
          | some w => exact absurd hns (fun hn => h.not_both ref.name hn (by simp [hcase]))
        have hidxseg : alookup t.name_attr_index seg = some ref.name :=
          (h.paired seg ref.name).mpr hseg
        rw [popRef_last_name hc1 hty hseg]
        constructor
        · intro r'
          show 0 ≤ (alookup (dictInsert t.counts ref.name (countGet t ref.name - 1)) r').getD 0
          rw [countGet_set]
          by_cases hr : r' = ref.name
          · simp [hr]; omega
          · simp [hr]; exact h.nonneg r'
        · intro r'
          show ((alookup (dictRemove t.attr_names ref.name) r').isSome ∨
              (alookup t.attr_values r').isSome) ↔
            1 ≤ (alookup (dictInsert t.counts ref.name (countGet t ref.name - 1)) r').getD 0
          rw [countGet_set]
          by_cases hr : r' = ref.name
          · subst hr
            rw [alookup_dictRemove_self, hvs]
            simp [hc1]
          · rw [alookup_dictRemove_ne _ hr, if_neg hr]
            exact h.mem_iff r'
        · intro s' r'
          show alookup (dictRemove t.name_attr_index seg) s' = some r' ↔
            alookup (dictRemove t.attr_names ref.name) r' = some s'
          by_cases hs : s' = seg
          · subst hs
            rw [alookup_dictRemove_self]
            constructor
            · intro hh; cases hh
            · intro hh
              by_cases hr : r' = ref.name
              · subst hr; rw [alookup_dictRemove_self] at hh; cases hh
              · rw [alookup_dictRemove_ne _ hr] at hh
                have := (h.paired s' r').mpr hh
                rw [hidxseg] at this
                exact absurd (Option.some.inj this).symm hr
          · rw [alookup_dictRemove_ne _ hs]
            by_cases hr : r' = ref.name
            · subst hr
              rw [alookup_dictRemove_self]
              constructor
              · intro hh
                have := (h.paired s' ref.name).mp hh
                rw [hseg] at this
                exact absurd (Option.some.inj this).symm hs
              · intro hh; cases hh
            · rw [alookup_dictRemove_ne _ hr]
              exact h.paired s' r'
        · intro r' hr'
          obtain ⟨hn', -⟩ := isSome_of_dictRemove hr'
          exact h.namekeys r' hn'
        · exact h.valkeys

/-! Allocation/release bookkeeping: the effect of one allocation and the
exact undoing performed by `pop_refs`. -/

theorem dictRemove_append {κ : Type} [DecidableEq κ] {α : Type}
    (a b : List (κ × α)) (k : κ) :
    dictRemove (a ++ b) k = dictRemove a k ++ dictRemove b k := by
  induction a with
  | nil => rfl
  | cons q rest ih =>
    obtain ⟨x, y⟩ := q
    by_cases hx : x = k
    · simp [dictRemove, hx, ih]
    · simp [dictRemove, hx, ih]

theorem alookup_append_entry {κ : Type} [DecidableEq κ] {α : Type}
    {l : List (κ × α)} {k : κ} (v : α) (tail : List (κ × α))
    (h : alookup l k = none) : alookup (l ++ (k, v) :: tail) k = some v := by
  rw [alookup_append, h]
  simp [alookup]

theorem name_ref_attr_values (t : ReferenceTracker) (s : String) :
    (name_ref t s).2.attr_values = t.attr_values := by
  cases hidx : alookup t.name_attr_index s with
  | some r => rw [name_ref_dedup hidx]
  | none => rw [name_ref_fresh hidx]

theorem name_ref_next_le (t : ReferenceTracker) (s : String) :
    t.next_index ≤ (name_ref t s).2.next_index := by
  cases hidx : alookup t.name_attr_index s with
  | some r => rw [name_ref_dedup hidx]
  | none => rw [name_ref_fresh hidx]; exact Nat.le_succ _

theorem name_ref_countGet_vref {t : ReferenceTracker} (hinv : TrackerInv t)
    (s : String) (i : Nat) :
    countGet (name_ref t s).2 (vref i) = countGet t (vref i) := by
  cases hidx : alookup t.name_attr_index s with
  | some r =>
    rw [name_ref_dedup hidx]
    have hlive : alookup t.attr_names r = some s := (hinv.paired s r).mp hidx
    obtain ⟨j, -, rfl⟩ := hinv.namekeys r (by simp [hlive])
    show (alookup (dictInsert t.counts (nref j) _) (vref i)).getD 0 = _
    rw [alookup_dictInsert_ne _ _ (vref_ne_nref i j)]
    rfl
  | none =>
    rw [name_ref_fresh hidx]
    show (alookup (dictInsert t.counts (nref t.next_index) _) (vref i)).getD 0 = _
    rw [alookup_dictInsert_ne _ _ (vref_ne_nref i t.next_index)]
    rfl

theorem pathRefLoop_facts {t : ReferenceTracker} (hinv : TrackerInv t)
    (pieces : List PathSeg) (acc : List String) :
    TrackerInv (pathRefLoop t pieces acc).2 ∧
    (pathRefLoop t pieces acc).2.attr_values = t.attr_values ∧
    t.next_index ≤ (pathRefLoop t pieces acc).2.next_index ∧
    (∀ i, countGet (pathRefLoop t pieces acc).2 (vref i) = countGet t (vref i)) := by
  induction pieces generalizing t acc with
  | nil => exact ⟨hinv, rfl, Nat.le_refl _, fun _ => rfl⟩
  | cons seg rest ih =>
    cases seg with
    | idx n => exact ih hinv _
    | key str =>
      have hgoal : pathRefLoop t (PathSeg.key str :: rest) acc =
          pathRefLoop (name_ref t str).2 rest (acc ++ [(name_ref t str).1]) := rfl
      rw [hgoal]
      obtain ⟨h1, h2, h3, h4⟩ := ih (tinv_name_ref hinv str) (acc ++ [(name_ref t str).1])
      refine ⟨h1, ?_, ?_, ?_⟩
      · rw [h2, name_ref_attr_values]
      · exact Nat.le_trans (name_ref_next_le t str) h3
      · intro i
        rw [h4 i, name_ref_countGet_vref hinv]

theorem path_ref_facts {t : ReferenceTracker} (hinv : TrackerInv t) (col : Column) :
    TrackerInv (path_ref t col).2 ∧
    (path_ref t col).2.attr_values = t.attr_values ∧
    t.next_index ≤ (path_ref t col).2.next_index ∧
    (∀ i, countGet (path_ref t col).2 (vref i) = countGet t (vref i)) := by
  unfold path_ref
  exact pathRefLoop_facts hinv _ []

/-- What allocating one name reference does, as seen by a later release. -/
structure NameStep (t t1 : ReferenceTracker) (rn : String) : Prop where
  inv : TrackerInv t1
  next_le : t.next_index ≤ t1.next_index
  values_eq : t1.attr_values = t.attr_values
  count_self : countGet t1 rn = countGet t rn + 1
  count_other : ∀ r, r ≠ rn → countGet t1 r = countGet t r
  is_nref : ∃ j, rn = nref j
  names_shape : (1 ≤ countGet t rn ∧ t1.attr_names = t.attr_names) ∨
    (countGet t rn = 0 ∧ alookup t.attr_names rn = none ∧
      ∃ str, t1.attr_names = t.attr_names ++ [(rn, str)])

theorem nameStep_of_name_ref {t : ReferenceTracker} (hinv : TrackerInv t) (s : String) :
    NameStep t (name_ref t s).2 (name_ref t s).1 := by
  cases hidx : alookup t.name_attr_index s with
  | some r =>
    rw [name_ref_dedup hidx]
    have hlive : alookup t.attr_names r = some s := (hinv.paired s r).mp hidx
    have hmem : 1 ≤ countGet t r := (hinv.mem_iff r).mp (Or.inl (by simp [hlive]))
    obtain ⟨j, -, hj⟩ := hinv.namekeys r (by simp [hlive])
    refine ⟨?_, Nat.le_refl _, rfl, ?_, ?_, ⟨j, hj⟩, Or.inl ⟨hmem, rfl⟩⟩
    · have := tinv_name_ref hinv s
      rwa [name_ref_dedup hidx] at this
    · show (alookup (dictInsert t.counts r _) r).getD 0 = _
      rw [alookup_dictInsert_self]
      rfl
    · intro r' hr'
      show (alookup (dictInsert t.counts r _) r').getD 0 = _
      rw [alookup_dictInsert_ne _ _ hr']
      rfl
  | none =>
    rw [name_ref_fresh hidx]
    have hfn := hinv.fresh_name (Nat.le_refl _)
    have hfc := hinv.fresh_count_n (Nat.le_refl _)
    refine ⟨?_, Nat.le_succ _, rfl, ?_, ?_, ⟨t.next_index, rfl⟩,
      Or.inr ⟨hfc, hfn, s, by
        rw [dictInsert_of_none s hfn]⟩⟩
    · have := tinv_name_ref hinv s
      rwa [name_ref_fresh hidx] at this
    · show (alookup (dictInsert t.counts (nref t.next_index) _) (nref t.next_index)).getD 0 = _
      rw [alookup_dictInsert_self]
      rfl
    · intro r' hr'
      show (alookup (dictInsert t.counts (nref t.next_index) _) r').getD 0 = _
      rw [alookup_dictInsert_ne _ _ hr']
      rfl

/-- What allocating one (successful) value reference does. -/
structure ValueStep (t t1 : ReferenceTracker) (rv : String) (w : Option String) : Prop where
  inv : TrackerInv t1
  next_le : t.next_index ≤ t1.next_index
  names_eq : t1.attr_names = t.attr_names
  fresh : alookup t.attr_values rv = none
  values_eq : t1.attr_values = t.attr_values ++ [(rv, w)]
  count_before : countGet t rv = 0
  count_self : countGet t1 rv = 1
  count_other : ∀ r, r ≠ rv → countGet t1 r = countGet t r
  is_vref : ∃ j, rv = vref j

theorem valueStep_of_value_ref {t t1 : ReferenceTracker} (hinv : TrackerInv t)
    {col : Column} {v w : Option String} {dmp inn : Bool} {rv : String}
    (hres : value_ref t col v dmp inn = (.ok (rv, w), t1)) :
    ValueStep t t1 rv w := by
  cases hw : dumpResult t col v dmp inn with
  | none =>
    rw [value_ref_err hw] at hres
    exact absurd (congrArg Prod.fst hres) (by simp)
  | some w2 =>
    rw [value_ref_ok hw] at hres
    have h1 := congrArg Prod.fst hres
    simp only at h1
    cases h1
    have h2 := congrArg Prod.snd hres
    simp only at h2
    subst h2
    have hfv := hinv.fresh_value (Nat.le_refl _)
    have hfc := hinv.fresh_count_v (Nat.le_refl _)
    refine ⟨?_, Nat.le_succ _, rfl, hfv, by rw [dictInsert_of_none _ hfv], hfc, ?_, ?_,
      ⟨t.next_index, rfl⟩⟩
    · exact tinv_value_ref hinv (value_ref_ok hw)
    · show (alookup (dictInsert t.counts (vref t.next_index) _) (vref t.next_index)).getD 0 = 1
      rw [alookup_dictInsert_self]
      show countGet t (vref t.next_index) + 1 = 1
      rw [hfc]
      norm_num
    · intro r' hr'
      show (alookup (dictInsert t.counts (vref t.next_index) _) r').getD 0 = _
      rw [alookup_dictInsert_ne _ _ hr']
      rfl

/-- Releasing a name ref from any later state undoes its allocation's
effect on `attr_names`. -/
theorem popstep_name {t t1 t2 : ReferenceTracker} {rn : String}
    (ns : NameStep t t1 rn) {extraN : List (String × String)}
    (h2n : t2.attr_names = t1.attr_names ++ extraN)
    (h2c : countGet t2 rn = countGet t1 rn)
    (hfn : alookup extraN rn = none) (vv : Option String) :
    (popRef t2 ⟨rn, "name", vv⟩).attr_names = t.attr_names ++ extraN ∧
    (popRef t2 ⟨rn, "name", vv⟩).attr_values = t2.attr_values ∧
    (∀ r, r ≠ rn → countGet (popRef t2 ⟨rn, "name", vv⟩) r = countGet t2 r) := by
  have hcount : countGet t2 rn = countGet t rn + 1 := by rw [h2c, ns.count_self]
  rcases ns.names_shape with ⟨hge, heq⟩ | ⟨hz, hfresh, str, happ⟩
  · have hgt : 1 < countGet t2 rn := by omega
    rw [@popRef_many t2 ⟨rn, "name", vv⟩ hgt]
    refine ⟨by rw [h2n, heq], rfl, ?_⟩
    intro r hr
    show (alookup (dictInsert t2.counts rn _) r).getD 0 = _
    rw [alookup_dictInsert_ne _ _ hr]
    rfl
  · have hone : countGet t2 rn = 1 := by omega
    have hsome : alookup t2.attr_names rn = some str := by
      rw [h2n, happ, List.append_assoc, List.singleton_append,
        alookup_append_entry str extraN hfresh]
    rw [@popRef_last_name t2 ⟨rn, "name", vv⟩ str hone (by simp) hsome]
    refine ⟨?_, rfl, ?_⟩
    · show dictRemove t2.attr_names rn = _
      rw [h2n, happ, dictRemove_append, dictRemove_append,
        dictRemove_of_none hfresh, dictRemove_of_none hfn]
      simp [dictRemove, alookup]
    · intro r hr
      show (alookup (dictInsert t2.counts rn _) r).getD 0 = _
      rw [alookup_dictInsert_ne _ _ hr]
      rfl

/-- Releasing a value ref from any later state removes exactly its entry
from `attr_values`. -/
theorem popstep_value {t t1 t2 : ReferenceTracker} {rv : String} {w : Option String}
    (vs : ValueStep t t1 rv w) {extraV : List (String × Option String)}
    (h2v : t2.attr_values = t1.attr_values ++ extraV)
    (h2c : countGet t2 rv = 1)
    (hfv : alookup extraV rv = none) (vv : Option String) :
    (popRef t2 ⟨rv, "value", vv⟩).attr_values = t.attr_values ++ extraV ∧
    (popRef t2 ⟨rv, "value", vv⟩).attr_names = t2.attr_names ∧
    (∀ r, r ≠ rv → countGet (popRef t2 ⟨rv, "value", vv⟩) r = countGet t2 r) := by
  rw [@popRef_last_value t2 ⟨rv, "value", vv⟩ h2c rfl]
  refine ⟨?_, rfl, ?_⟩
  · show dictRemove t2.attr_values rv = _
    rw [h2v, vs.values_eq, List.append_assoc, dictRemove_append,
      dictRemove_of_none vs.fresh, List.singleton_append]
    have : dictRemove ((rv, w) :: extraV) rv = dictRemove extraV rv := by
      simp [dictRemove]
    rw [this, dictRemove_of_none hfv]
  · intro r hr
    show (alookup (dictInsert t2.counts rv _) r).getD 0 = _
    rw [alookup_dictInsert_ne _ _ hr]
    rfl

/-! Concrete fixtures used by counterexamples and witnesses. -/

/-- A string-backed type supporting every condition operation. -/
def td0 : Typedef :=
  .mk "S" ["==", "!=", "<", ">", "<=", ">=", "begins_with", "between", "contains", "in"] [] none

/-- A string-backed type supporting no condition operation. -/
def tdNone : Typedef := .mk "S" [] [] none

/-- An engine whose dump is the identity (wire values are opaque here). -/
def idEngine : Engine := ⟨fun _ v => v⟩

def colA : Column := ⟨"a", "a", "M", td0, []⟩
/-- `M.a["b"]` — a nested (two-segment) attribute path. -/
def colAB : Column := ⟨"a", "a", "M", td0, [.key "b"]⟩
/-- `M.a[0]` — a path with an integer index segment. -/
def colAIdx : Column := ⟨"a", "a", "M", td0, [.idx 0]⟩
def colB : Column := ⟨"b", "b", "M", td0, []⟩
def colName : Column := ⟨"name", "name", "M", td0, []⟩
def colAge : Column := ⟨"age", "age", "M", td0, []⟩
def colId : Column := ⟨"id", "id", "M", td0, []⟩
/-- A column whose backing type supports nothing. -/
def colBad : Column := ⟨"c", "c", "M", tdNone, []⟩

def t0 : ReferenceTracker := initTracker idEngine

/-- The C3 object: marked columns `name` (current value `"x"`) and `age`
(explicitly cleared, so `getattr` returns `None`); `age` is not a key. -/
def obj3 : Obj :=
  { meta := { columns := [colId, colName, colAge], keys := [colId] },
    values := [("name", .lit (some "x"))],
    marked := [colName, colAge],
    snapshot := none }

def cmpA : BaseCondition := .comparison "<" colA (.lit (some "1")) false
def cmpB : BaseCondition := .comparison "<" colA (.lit (some "2")) false
def cmpC : BaseCondition := .comparison "<" colA (.lit (some "3")) false

/-! ## C2 — unsupported operations fail at construction time -/

/-- C2 (counterexample): constructing `col == value` on a column whose
backing type does not support `"=="` raises `InvalidCondition` — not the
`UnsupportedOperation` the claim names (no such exception exists in the
code). -/
theorem c2_counterexample :
    mixinComparison colBad "==" (.lit (some "z")) =
      .error (.invalidCondition
        "Backing type 'S' for M.c does not support condition '=='.") := by
  rfl

/-- C2 (amended): every comparison-family constructor checks support at
construction time and fails with `InvalidCondition` whose message names
the column's backing type, its model and name, and the rejected operator;
when the operation is supported, construction succeeds and returns the
condition node (so the check happens at construction, not render, time). -/
theorem c2_construction_support (col : Column) (td : Typedef)
    (htd : tdescend col.typedef col.path = some td) :
    (∀ op (v : CVal), supports_operation op td = false →
      mixinComparison col op v = .error (.invalidCondition (unsupportedMsg col op))) ∧
    (∀ op (v : CVal), supports_operation op td = true →
      mixinComparison col op v = .ok (.comparison op col v false)) ∧
    (∀ v : CVal, supports_operation "begins_with" td = false →
      mixinBeginsWith col v = .error (.invalidCondition (unsupportedMsg col "begins_with"))) ∧
    (∀ lo hi : CVal, supports_operation "between" td = false →
      mixinBetween col lo hi = .error (.invalidCondition (unsupportedMsg col "between"))) ∧
    (∀ v : CVal, supports_operation "contains" td = false →
      mixinContains col v = .error (.invalidCondition (unsupportedMsg col "contains"))) ∧
    (∀ vs : List CVal, supports_operation "in" td = false →
      mixinIn col vs = .error (.invalidCondition (unsupportedMsg col "in"))) := by
  refine ⟨?_, ?_, ?_, ?_, ?_, ?_⟩
  · intro op v hop
    simp [mixinComparison, check_support, htd, hop]
  · intro op v hop
    simp [mixinComparison, check_support, htd, hop]
  · intro v hop
    simp [mixinBeginsWith, check_support, htd, hop]
  · intro lo hi hop
    simp [mixinBetween, check_support, htd, hop]
  · intro v hop
    simp [mixinContains, check_support, htd, hop]
  · intro vs hop
    simp [mixinIn, check_support, htd, hop]

/-- C2 (witness): the amended theorem applied to the concrete unsupported
column (error case) and the concrete supported column (success case). -/
theorem c2_construction_support_witness :
    mixinComparison colBad "==" (.lit (some "z")) =
      .error (.invalidCondition (unsupportedMsg colBad "==")) ∧
    mixinComparison colA "==" (.lit (some "z")) =
      .ok (.comparison "==" colA (.lit (some "z")) false) :=
  ⟨(c2_construction_support colBad tdNone rfl).1 "==" (.lit (some "z")) rfl,
   (c2_construction_support colA td0 rfl).2.1 "==" (.lit (some "z")) rfl⟩

/-! ## C3 — update expression for marked columns name="x", age=None -/

/-- C3 (counterexample): the rendered update expression is
`"SET #n2=:v3 REMOVE #n0"` — the sort by wire name visits `age` first, so
the SET placeholders are `#n2`/`:v3` and the REMOVE placeholder `#n0`, not
the `"SET #n0=:v1 REMOVE #n2"` the claim states. -/
theorem c3_counterexample :
    alookup (render_update_expression (initRenderer idEngine) obj3).2.expressions
        "UpdateExpression" = some (some "SET #n2=:v3 REMOVE #n0") ∧
    ("SET #n2=:v3 REMOVE #n0" : String) ≠ "SET #n0=:v1 REMOVE #n2" := by
  exact ⟨rfl, by decide⟩

/-- C3 (amended): rendering the update for marked columns
`{"name": "x", "age": None}` (age cleared, not a key) yields
`UpdateExpression = "SET #n2=:v3 REMOVE #n0"` — SET clause before REMOVE —
and the removed column leaves no entry in `ExpressionAttributeValues`
(which holds exactly the SET value `:v3`). -/
theorem c3_update_expression :
    (render_update_expression (initRenderer idEngine) obj3).1 = .ok () ∧
    alookup (render_update_expression (initRenderer idEngine) obj3).2.expressions
        "UpdateExpression" = some (some "SET #n2=:v3 REMOVE #n0") ∧
    (render_update_expression (initRenderer idEngine) obj3).2.refs.attr_values =
      [(":v3", some "x")] := by
  exact ⟨rfl, rfl, rfl⟩

/-! ## C4 — length of a condition -/

mutual

/-- The count the claim describes: leaf (non-connective) conditions
reachable transitively, connectives themselves contributing nothing (the
empty condition reaches none). -/
def leafCount : BaseCondition → Nat
  | .empty => 0
  | .and vs => leafCountList vs
  | .or vs => leafCountList vs
  | .not v => leafCount v
  | _ => 1

def leafCountList : List BaseCondition → Nat
  | [] => 0
  | c :: rest => leafCount c + leafCountList rest

end

/-- C4 (counterexample): `len((a | b) & c)` is 4, because the inner `Or`
connective is itself yielded by `iter_conditions` and counted — the claim
predicts the leaf count 3. -/
theorem c4_counterexample :
    condLen (.and [.or [cmpA, cmpB], cmpC]) = 4 ∧
    leafCount (.and [.or [cmpA, cmpB], cmpC]) = 3 ∧
    (4 : Nat) ≠ 3 := by
  refine ⟨?_, by simp [leafCount, leafCountList, cmpA, cmpB, cmpC], by decide⟩
  simp [condLen, iterLoop, iterChildren, cmpA, cmpB, cmpC]

/-- The count `__len__` actually implements: the empty condition is 0, a
leaf is 1, `not` delegates to its child, and an `and`/`or` counts every
node strictly inside it — nested connectives included — via
`iter_conditions`. -/
def amendedLen : BaseCondition → Nat
  | .empty => 0
  | .and vs => condSizeList vs
  | .or vs => condSizeList vs
  | .not v => amendedLen v
  | _ => 1

theorem iterLoop_length (stack : List BaseCondition) :
    (iterLoop stack).length = condSizeList stack := by
  induction stack using iterLoop.induct with
  | case1 => simp [iterLoop, condSizeList]
  | case2 c rest ih =>
    rw [iterLoop]
    have h1 := condSizeList_append (iterChildren c) rest
    cases c <;>
      simp [iterChildren, condSizeList, condSize, List.length] at ih h1 ⊢ <;>
      omega

/-- C4 (amended): `len` equals: 0 for empty, 1 for a leaf, the child's
length for `not`, and for `and`/`or` the total number of nodes strictly
below the root — leaves and nested connective nodes alike each counting 1
(the root connective itself contributing nothing). -/
theorem c4_len_counts_all_inner_nodes : ∀ c : BaseCondition, condLen c = amendedLen c
  | .empty => rfl
  | .comparison op c v d => rfl
  | .begins_with c v d => rfl
  | .between c lo hi d => rfl
  | .contains c v d => rfl
  | .isin c vs d => rfl
  | .and vs => by simp [condLen, amendedLen, iterLoop_length]
  | .or vs => by simp [condLen, amendedLen, iterLoop_length]
  | .not v => by simp [condLen, amendedLen, c4_len_counts_all_inner_nodes v]

/-! ## C5 — algebraic identities -/

/-- Does the tree start with a double negation? (`~~A = A` fails exactly
on these.) -/
def isNotNot : BaseCondition → Bool
  | .not (.not _) => true
  | _ => false

/-- C5 (counterexample): two failures of the claim as stated.
`Empty & A` returns `Empty` (not `A`) for the zero-length connective
`A = And([])`, and `not(not(A))` applied to the non-empty
`A = Not(Not(a < 3))` gives the doubly-stripped `a < 3`, not `A`. -/
theorem c5_counterexample :
    cand .empty (.and []) = .empty ∧
    BaseCondition.empty ≠ .and [] ∧
    condTruthy (.not (.not cmpC)) = true ∧
    cinvert (cinvert (.not (.not cmpC))) = cmpC ∧
    BaseCondition.not (.not cmpC) ≠ cmpC := by
  refine ⟨?_, fun h => BaseCondition.noConfusion h, ?_, rfl,
    fun h => BaseCondition.noConfusion h⟩
  · simp [cand, condTruthy, condLen, iterLoop]
  · simp [condTruthy, condLen, cmpC]

/-- C5 (amended): `A & Empty = A` and `A | Empty = A` hold for every `A`;
`Empty & A = A` and `Empty | A = A` hold for every non-empty `A` (for a
zero-length `A` they return `Empty`); `not(Empty) = Empty`; and
`not(not(A)) = A` holds for every non-empty `A` that is not itself a
double negation (on `Not(Not(x))` inversion cancels to `x` first, so the
round trip strips two negations). -/
theorem c5_algebra :
    (∀ a : BaseCondition, cand a .empty = a ∧ cor a .empty = a) ∧
    (∀ a : BaseCondition, condTruthy a = true → cand .empty a = a ∧ cor .empty a = a) ∧
    (cinvert .empty = .empty) ∧
    (∀ a : BaseCondition, condTruthy a = true → isNotNot a = false →
      cinvert (cinvert a) = a) := by
  refine ⟨?_, ?_, rfl, ?_⟩
  · intro a
    constructor <;> simp [cand, cor, condTruthy, condLen, iterLoop]
  · intro a ha
    constructor <;> simp [cand, cor, condTruthy, condLen, iterLoop, ha] <;>
      cases a <;> simp_all [condTruthy, condLen]
  · intro a ha hnn
    cases a with
    | empty => simp [condTruthy, condLen] at ha
    | not v =>
      cases v with
      | empty => simp [condTruthy, condLen] at ha
      | not w => simp [isNotNot] at hnn
      | and vs =>
        have : condTruthy (BaseCondition.and vs) = true := by
          simpa [condTruthy, condLen] using ha
        simp [cinvert, condTruthy] at this ⊢
      | or vs => simp [cinvert]
      | comparison op c v d => simp [cinvert]
      | begins_with c v d => simp [cinvert]
      | between c lo hi d => simp [cinvert]
      | contains c v d => simp [cinvert]
      | isin c vs d => simp [cinvert]
    | and vs => simp [cinvert]
    | or vs => simp [cinvert]
    | comparison op c v d => simp [cinvert]
    | begins_with c v d => simp [cinvert]
    | between c lo hi d => simp [cinvert]
    | contains c v d => simp [cinvert]
    | isin c vs d => simp [cinvert]

/-- C5 (witness): the amended identities at concrete conditions. -/
theorem c5_algebra_witness :
    (cand .empty cmpA = cmpA ∧ cor .empty cmpA = cmpA) ∧
    cinvert (cinvert (.not cmpA)) = .not cmpA := by
  constructor
  · exact (c5_algebra.2.1 cmpA (by simp [condTruthy, condLen, cmpA]))
  · exact c5_algebra.2.2.2 (.not cmpA) (by simp [condTruthy, condLen, cmpA])
      (by simp [isNotNot, cmpA])

/-! ## C8 — zero-child connectives raise on render; one child passes through -/

/-- C8: an `And`/`Or` built with zero children constructs without error
(construction is a total constructor) but raises `InvalidCondition` when
rendered, from any tracker state, leaving the tracker untouched; with
exactly one child its render is exactly the child's render — same result,
same state, no wrapper. -/
theorem c8_connectives :
    (∀ t : ReferenceTracker, renderCond (.and []) t =
      (.error (.invalidCondition
        "Invalid Condition: <( & )> does not contain any Conditions."), t)) ∧
    (∀ t : ReferenceTracker, renderCond (.or []) t =
      (.error (.invalidCondition
        "Invalid Condition: <( | )> does not contain any Conditions."), t)) ∧
    (∀ (c : BaseCondition) (t : ReferenceTracker),
      renderCond (.and [c]) t = renderCond c t) ∧
    (∀ (c : BaseCondition) (t : ReferenceTracker),
      renderCond (.or [c]) t = renderCond c t) := by
  refine ⟨fun t => rfl, fun t => rfl, ?_, ?_⟩
  · intro c t
    rcases hres : renderCond c t with ⟨res, t2⟩
    cases res with
    | error e => simp [renderCond, renderList, hres]
    | ok r => simp [renderCond, renderList, hres]
  · intro c t
    rcases hres : renderCond c t with ⟨res, t2⟩
    cases res with
    | error e => simp [renderCond, renderList, hres]
    | ok r => simp [renderCond, renderList, hres]

/-! ## C10 — atomic/update render without an object -/

/-- C10: calling the renderer entry point with `atomic` or `update` set and
no object raises `InvalidCondition` immediately: no fragment is rendered,
no placeholder allocated, and the returned renderer state is the untouched
initial one (empty expression bundle, empty tracker tables, counter 0). -/
theorem c10_render_requires_obj (engine : Engine) (condition : Option BaseCondition)
    (atomic update : Bool) (filter : Option BaseCondition)
    (projection : Option (List Column)) (key : Option BaseCondition)
    (h : (atomic || update) = true) :
    (initRenderer engine).render none condition atomic update filter projection key =
      (.error (.invalidCondition
        "An object is required to render atomic conditions or updates without an object."),
       initRenderer engine) ∧
    (initRenderer engine).expressions = [] ∧
    (initRenderer engine).refs.attr_names = [] ∧
    (initRenderer engine).refs.attr_values = [] ∧
    (initRenderer engine).refs.counts = [] ∧
    (initRenderer engine).refs.next_index = 0 := by
  refine ⟨?_, rfl, rfl, rfl, rfl, rfl⟩
  simp [ConditionRenderer.render, h]

/-- C10 (witness): concrete invocation with `update = true` and no
object. -/
theorem c10_render_requires_obj_witness :
    (initRenderer idEngine).render none none false true none none none =
      (.error (.invalidCondition
        "An object is required to render atomic conditions or updates without an object."),
       initRenderer idEngine) :=
  (c10_render_requires_obj idEngine none false true none none none rfl).1

/-! ## C9 — `== None` / `!= None` compile to attribute existence functions -/

theorem name_ref_engine (t : ReferenceTracker) (s : String) :
    (name_ref t s).2.engine = t.engine := by
  cases hidx : alookup t.name_attr_index s with
  | some r => rw [name_ref_dedup hidx]
  | none => rw [name_ref_fresh hidx]

theorem pathRefLoop_engine (t : ReferenceTracker) (pieces : List PathSeg)
    (acc : List String) : (pathRefLoop t pieces acc).2.engine = t.engine := by
  induction pieces generalizing t acc with
  | nil => rfl
  | cons seg rest ih =>
    cases seg with
    | idx n => exact ih t _
    | key str =>
      have hgoal : pathRefLoop t (PathSeg.key str :: rest) acc =
          pathRefLoop (name_ref t str).2 rest (acc ++ [(name_ref t str).1]) := rfl
      rw [hgoal, ih, name_ref_engine]

theorem path_ref_engine (t : ReferenceTracker) (col : Column) :
    (path_ref t col).2.engine = t.engine := by
  have h : (path_ref t col).2 =
      (pathRefLoop t (PathSeg.key col.dynamo_name :: col.path) []).2 := rfl
  rw [h, pathRefLoop_engine]

theorem dumpResult_congr {t t' : ReferenceTracker} (h : t'.engine = t.engine)
    (col : Column) (v : Option String) (d i : Bool) :
    dumpResult t' col v d i = dumpResult t col v d i := by
  simp [dumpResult, h]

/-- C9 (counterexample): the rendered string for `a == None` is the
parenthesized `"(attribute_not_exists(#n0))"`, not the claim's bare
`"attribute_not_exists(#n0)"` (every comparison render wraps its output in
parentheses); the discarded value ref does leave `attr_values` empty. -/
theorem c9_counterexample :
    (renderCond (.comparison "==" colA (.lit none) false) t0).1 =
      .ok (some "(attribute_not_exists(#n0))") ∧
    ("(attribute_not_exists(#n0))" : String) ≠ "attribute_not_exists(#n0)" ∧
    (renderCond (.comparison "==" colA (.lit none) false) t0).2.attr_values = [] := by
  exact ⟨rfl, by decide, rfl⟩

/-- C9 (amended): from any reachable tracker state, rendering
`Column == None` yields `(attribute_not_exists(<path>))` and
`Column != None` yields `(attribute_exists(<path>))` — the path's
placeholder expression wrapped in the condition's parentheses — and in
both cases the temporarily allocated value reference is released, leaving
`attr_values` exactly as it was. -/
theorem c9_eq_none_attribute_fns (t : ReferenceTracker) (hinv : TrackerInv t)
    (col : Column) (dmp : Bool)
    (hdump : dumpResult t col none dmp false = some none) :
    (renderCond (.comparison "==" col (.lit none) dmp) t).1 =
      .ok (some ("(attribute_not_exists(" ++ (path_ref t col).1 ++ "))")) ∧
    (renderCond (.comparison "==" col (.lit none) dmp) t).2.attr_values = t.attr_values ∧
    (renderCond (.comparison "!=" col (.lit none) dmp) t).1 =
      .ok (some ("(attribute_exists(" ++ (path_ref t col).1 ++ "))")) ∧
    (renderCond (.comparison "!=" col (.lit none) dmp) t).2.attr_values = t.attr_values := by
  obtain ⟨hinv1, hval1, hnext1, hcnt1⟩ := path_ref_facts hinv col
  have hdump1 : dumpResult (path_ref t col).2 col none dmp false = some none := by
    rw [dumpResult_congr (path_ref_engine t col) col none dmp false]
    exact hdump
  have hvres := value_ref_ok hdump1
  have hvstep := valueStep_of_value_ref hinv1 hvres
  have hcref : ∀ dmp2 : Bool, any_ref t col none dmp2 false =
      (.ok ⟨(path_ref t col).1, "name", none⟩, (path_ref t col).2) := fun _ => rfl
  have hvref : any_ref (path_ref t col).2 col (some (.lit none)) dmp false =
      (.ok ⟨vref (path_ref t col).2.next_index, "value", none⟩,
        { (path_ref t col).2 with
            next_index := (path_ref t col).2.next_index + 1,
            attr_values := dictInsert (path_ref t col).2.attr_values
              (vref (path_ref t col).2.next_index) none,
            counts := dictInsert (path_ref t col).2.counts
              (vref (path_ref t col).2.next_index)
              (countGet (path_ref t col).2 (vref (path_ref t col).2.next_index) + 1) }) := by
    simp only [any_ref, hvres]
  obtain ⟨hpop1, hpop2, hpop3⟩ := @popstep_value _ _
    ((value_ref (path_ref t col).2 col none dmp false).2)
    _ _ hvstep [] (by
      rw [List.append_nil]
      have := congrArg Prod.snd hvres
      rw [this]) (by
      have := congrArg Prod.snd hvres
      rw [this]
      exact hvstep.count_self) rfl none
  have hlit1 : ("(" ++ "attribute_not_exists" ++ "(" : String) = "(attribute_not_exists(" := rfl
  have hlit2 : ("(" ++ "attribute_exists" ++ "(" : String) = "(attribute_exists(" := rfl
  have hsnd : (value_ref (path_ref t col).2 col none dmp false).2 =
      { (path_ref t col).2 with
          next_index := (path_ref t col).2.next_index + 1,
          attr_values := dictInsert (path_ref t col).2.attr_values
            (vref (path_ref t col).2.next_index) none,
          counts := dictInsert (path_ref t col).2.counts
            (vref (path_ref t col).2.next_index)
            (countGet (path_ref t col).2 (vref (path_ref t col).2.next_index) + 1) } := by
    rw [hvres]
  have hmain1 : renderCond (.comparison "==" col (.lit none) dmp) t =
      (.ok (some ("(attribute_not_exists(" ++ (path_ref t col).1 ++ "))")),
       popRef (value_ref (path_ref t col).2 col none dmp false).2
         ⟨vref (path_ref t col).2.next_index, "value", none⟩) := by
    simp only [renderCond, hcref, hvref]
    rw [hsnd]
    simp [pop_refs, hlit1]
  have hmain2 : renderCond (.comparison "!=" col (.lit none) dmp) t =
      (.ok (some ("(attribute_exists(" ++ (path_ref t col).1 ++ "))")),
       popRef (value_ref (path_ref t col).2 col none dmp false).2
         ⟨vref (path_ref t col).2.next_index, "value", none⟩) := by
    simp only [renderCond, hcref, hvref]
    rw [hsnd]
    simp [pop_refs, hlit2]
  refine ⟨?_, ?_, ?_, ?_⟩
  · rw [hmain1]
  · rw [hmain1]
    show (popRef (value_ref (path_ref t col).2 col none dmp false).2
      ⟨vref (path_ref t col).2.next_index, "value", none⟩).attr_values = _
    rw [hpop1, List.append_nil, hval1]
  · rw [hmain2]
  · rw [hmain2]
    show (popRef (value_ref (path_ref t col).2 col none dmp false).2
      ⟨vref (path_ref t col).2.next_index, "value", none⟩).attr_values = _
    rw [hpop1, List.append_nil, hval1]

/-- C9 (witness): the amended theorem at the initial tracker and the
top-level column `a`. -/
theorem c9_eq_none_attribute_fns_witness :
    (renderCond (.comparison "==" colA (.lit none) false) t0).1 =
      .ok (some ("(attribute_not_exists(" ++ (path_ref t0 colA).1 ++ "))")) ∧
    (renderCond (.comparison "==" colA (.lit none) false) t0).2.attr_values =
      t0.attr_values :=
  ⟨(c9_eq_none_attribute_fns t0 (tinv_init idEngine) colA false rfl).1,
   (c9_eq_none_attribute_fns t0 (tinv_init idEngine) colA false rfl).2.1⟩

/-! ## C7 — name de-duplication, never-de-duplicated values, shared counter -/

theorem popRef_last_name_missing {t : ReferenceTracker} {ref : Reference}
    (h : countGet t ref.name = 1) (hty : ref.type ≠ "value")
    (hn : alookup t.attr_names ref.name = none) :
    popRef t ref =
      { t with counts := dictInsert t.counts ref.name (countGet t ref.name - 1),
               attr_names := dictRemove t.attr_names ref.name } := by
  have h1 : ¬ countGet t ref.name < 1 := by omega
  have h2 : ¬ countGet t ref.name > 1 := by omega
  have hty' : (ref.type == "value") = false := by simpa using hty
  simp [popRef, h1, h2, hty', hn]

theorem popRef_next (t : ReferenceTracker) (ref : Reference) :
    (popRef t ref).next_index = t.next_index := by
  by_cases h0 : countGet t ref.name < 1
  · rw [popRef_zero h0]
  · by_cases h1 : 1 < countGet t ref.name
    · rw [popRef_many h1]
    · have hc : countGet t ref.name = 1 := by omega
      by_cases hty : ref.type = "value"
      · rw [popRef_last_value hc hty]
      · cases hn : alookup t.attr_names ref.name with
        | some s => rw [popRef_last_name hc hty hn]
        | none => rw [popRef_last_name_missing hc hty hn]

theorem value_ref_next (t : ReferenceTracker) (col : Column) (v : Option String)
    (d i : Bool) : t.next_index ≤ (value_ref t col v d i).2.next_index := by
  cases hw : dumpResult t col v d i with
  | none => rw [value_ref_err hw]; exact Nat.le_succ _
  | some w => rw [value_ref_ok hw]; exact Nat.le_succ _

/-- C7: (a) asking for the same attribute-path segment twice returns the
same single `#n` placeholder — no new index, no new table entry, count
bumped by one; (b) two successive value-reference allocations always
return two distinct `:v` placeholders, numbered by the states' counters;
(c) all indices come from the one shared counter, which no operation ever
decreases (releases leave it untouched). -/
theorem c7_placeholder_allocation :
    (∀ (t : ReferenceTracker) (s : String),
      (name_ref (name_ref t s).2 s).1 = (name_ref t s).1 ∧
      (name_ref (name_ref t s).2 s).2.attr_names = (name_ref t s).2.attr_names ∧
      (name_ref (name_ref t s).2 s).2.next_index = (name_ref t s).2.next_index ∧
      countGet (name_ref (name_ref t s).2 s).2 (name_ref t s).1 =
        countGet (name_ref t s).2 (name_ref t s).1 + 1) ∧
    (∀ (t : ReferenceTracker) (col col2 : Column) (v v2 : Option String)
        (d d2 i i2 : Bool) (rv1 rv2 : String) (w1 w2 : Option String)
        (t1 t2 : ReferenceTracker),
      value_ref t col v d i = (.ok (rv1, w1), t1) →
      value_ref t1 col2 v2 d2 i2 = (.ok (rv2, w2), t2) →
      rv1 ≠ rv2 ∧ rv1 = vref t.next_index ∧ rv2 = vref t1.next_index ∧
        t1.next_index = t.next_index + 1) ∧
    (∀ (t : ReferenceTracker) (s : String), t.next_index ≤ (name_ref t s).2.next_index) ∧
    (∀ (t : ReferenceTracker) (col : Column) (v : Option String) (d i : Bool),
      t.next_index ≤ (value_ref t col v d i).2.next_index) ∧
    (∀ (t : ReferenceTracker) (ref : Reference),
      (popRef t ref).next_index = t.next_index) := by
  refine ⟨?_, ?_, name_ref_next_le, value_ref_next, popRef_next⟩
  · intro t s
    cases hidx : alookup t.name_attr_index s with
    | some r =>
      have h1 := name_ref_dedup hidx
      have hidx2 : alookup (name_ref t s).2.name_attr_index s = some r := by
        rw [h1]; exact hidx
      have h2 := name_ref_dedup hidx2
      rw [h2, h1]
      refine ⟨rfl, rfl, rfl, ?_⟩
      show (alookup (dictInsert _ r _) r).getD 0 = _
      rw [alookup_dictInsert_self]
      rfl
    | none =>
      have h1 := name_ref_fresh hidx
      have hidx2 : alookup (name_ref t s).2.name_attr_index s =
          some (nref t.next_index) := by
        rw [h1]; exact alookup_dictInsert_self _ _ _
      have h2 := name_ref_dedup hidx2
      rw [h2, h1]
      refine ⟨rfl, rfl, rfl, ?_⟩
      show (alookup (dictInsert _ (nref t.next_index) _) (nref t.next_index)).getD 0 = _
      rw [alookup_dictInsert_self]
      rfl
  · intro t col col2 v v2 d d2 i i2 rv1 rv2 w1 w2 t1 t2 h1 h2
    have e1 : rv1 = vref t.next_index ∧ t1.next_index = t.next_index + 1 := by
      cases hw : dumpResult t col v d i with
      | none =>
        rw [value_ref_err hw] at h1
        exact absurd (congrArg Prod.fst h1) (by simp)
      | some w =>
        rw [value_ref_ok hw] at h1
        have ha := congrArg Prod.fst h1
        have hb := congrArg Prod.snd h1
        simp only at ha hb
        have hfst := congrArg Prod.fst (Except.ok.inj ha)
        simp only at hfst
        exact ⟨hfst.symm, by rw [← hb]⟩
    have e2 : rv2 = vref t1.next_index := by
      cases hw : dumpResult t1 col2 v2 d2 i2 with
      | none =>
        rw [value_ref_err hw] at h2
        exact absurd (congrArg Prod.fst h2) (by simp)
      | some w =>
        rw [value_ref_ok hw] at h2
        have ha := congrArg Prod.fst h2
        simp only at ha
        have hfst := congrArg Prod.fst (Except.ok.inj ha)
        simp only at hfst
        exact hfst.symm
    refine ⟨?_, e1.1, e2, e1.2⟩
    rw [e1.1, e2, e1.2]
    exact vref_ne_of_ne (by omega)

/-- C7 (witness): concrete double name allocation and two concrete value
allocations on a fresh tracker. -/
theorem c7_placeholder_allocation_witness :
    (name_ref (name_ref t0 "a").2 "a").1 = (name_ref t0 "a").1 ∧
    (":v0" : String) ≠ ":v1" := by
  refine ⟨(c7_placeholder_allocation.1 t0 "a").1, ?_⟩
  have h := c7_placeholder_allocation.2.1 t0 colA colA (some "1") (some "1")
    true true false false ":v0" ":v1" (some "1") (some "1")
    (value_ref t0 colA (some "1") true false).2
    (value_ref (value_ref t0 colA (some "1") true false).2 colA (some "1") true false).2
    rfl rfl
  exact h.1

/-! ## C6 — reference-count bookkeeping invariants -/

/-- `k` successive `_name_ref` requests for the same segment. -/
def allocNameN : Nat → ReferenceTracker → String → ReferenceTracker
  | 0, t, _ => t
  | k + 1, t, s => allocNameN k (name_ref t s).2 s

/-- `k` successive releases of the same reference. -/
def popN : Nat → ReferenceTracker → Reference → ReferenceTracker
  | 0, t, _ => t
  | k + 1, t, ref => popN k (popRef t ref) ref

theorem allocNameN_dedup (m : Nat) :
    ∀ (t : ReferenceTracker) (s r : String),
      alookup t.name_attr_index s = some r →
      (allocNameN m t s).attr_names = t.attr_names ∧
      (allocNameN m t s).attr_values = t.attr_values ∧
      (allocNameN m t s).name_attr_index = t.name_attr_index ∧
      countGet (allocNameN m t s) r = countGet t r + m := by
  induction m with
  | zero => intro t s r hidx; exact ⟨rfl, rfl, rfl, by simp [allocNameN]⟩
  | succ m ih =>
    intro t s r hidx
    have h1 := name_ref_dedup hidx
    have hstep : allocNameN (m + 1) t s = allocNameN m (name_ref t s).2 s := rfl
    have hidx2 : alookup (name_ref t s).2.name_attr_index s = some r := by
      rw [h1]; exact hidx
    obtain ⟨e1, e2, e3, e4⟩ := ih (name_ref t s).2 s r hidx2
    rw [hstep, e1, e2, e3, e4, h1]
    refine ⟨rfl, rfl, rfl, ?_⟩
    show countGet _ r + _ = _
    show (alookup (dictInsert t.counts r (countGet t r + 1)) r).getD 0 + (m : Int) = _
    rw [alookup_dictInsert_self]
    show countGet t r + 1 + (m : Int) = countGet t r + (m + 1 : Nat)
    push_cast
    ring

theorem popN_name_clears (m : Nat) :
    ∀ (t : ReferenceTracker) (r s : String) (vv : Option String),
      1 ≤ m → countGet t r = m → alookup t.attr_names r = some s →
      alookup (popN m t ⟨r, "name", vv⟩).attr_names r = none ∧
      countGet (popN m t ⟨r, "name", vv⟩) r = 0 := by
  induction m with
  | zero => intro t r s vv h1; omega
  | succ m ih =>
    intro t r s vv h1 hc hn
    by_cases hm : m = 0
    · subst hm
      have hc1 : countGet t r = 1 := by rw [hc]; norm_num
      have hstep := @popRef_last_name t ⟨r, "name", vv⟩ s hc1 (by simp) hn
      show alookup (popRef t ⟨r, "name", vv⟩).attr_names r = none ∧
        countGet (popRef t ⟨r, "name", vv⟩) r = 0
      rw [hstep]
      constructor
      · exact alookup_dictRemove_self _ _
      · show (alookup (dictInsert t.counts r (countGet t r - 1)) r).getD 0 = 0
        rw [alookup_dictInsert_self]
        rw [hc1]
        norm_num
    · have hgt : 1 < countGet t r := by rw [hc]; exact_mod_cast by omega
      have hstep := @popRef_many t ⟨r, "name", vv⟩ hgt
      have hc2 : countGet (popRef t ⟨r, "name", vv⟩) r = m := by
        rw [hstep]
        show (alookup (dictInsert t.counts r (countGet t r - 1)) r).getD 0 = _
        rw [alookup_dictInsert_self, hc]
        show ((m + 1 : Nat) : Int) - 1 = (m : Int)
        push_cast
        ring
      have hn2 : alookup (popRef t ⟨r, "name", vv⟩).attr_names r = some s := by
        rw [hstep]; exact hn
      exact ih (popRef t ⟨r, "name", vv⟩) r s vv (by omega) hc2 hn2

theorem popRef_nonneg {t : ReferenceTracker} (h : ∀ r, 0 ≤ countGet t r)
    (ref : Reference) : ∀ r, 0 ≤ countGet (popRef t ref) r := by
  intro r
  by_cases h0 : countGet t ref.name < 1
  · rw [popRef_zero h0]; exact h r
  · have key : ∀ t2 : ReferenceTracker, t2.counts =
        dictInsert t.counts ref.name (countGet t ref.name - 1) →
        0 ≤ countGet t2 r := by
      intro t2 ht2
      show 0 ≤ (alookup t2.counts r).getD 0
      rw [ht2]
      by_cases hr : r = ref.name
      · subst hr; rw [alookup_dictInsert_self]; simp; omega
      · rw [alookup_dictInsert_ne _ _ hr]; exact h r
    by_cases h1 : 1 < countGet t ref.name
    · rw [popRef_many h1]; exact key _ rfl
    · have hc : countGet t ref.name = 1 := by omega
      by_cases hty : ref.type = "value"
      · rw [popRef_last_value hc hty]; exact key _ rfl
      · cases hn : alookup t.attr_names ref.name with
        | some s => rw [popRef_last_name hc hty hn]; exact key _ rfl
        | none => rw [popRef_last_name_missing hc hty hn]; exact key _ rfl

/-- C6: the tracker's bookkeeping invariants.
(1) In every reachable state a placeholder appears in `attr_names` or
`attr_values` iff its reference count is positive: this holds initially
and is preserved by name allocation, value allocation, and release (for
the consistent references the tracker hands out).
(2) Releasing a name placeholder exactly `k` times after `k` allocations
of the same segment leaves the name table with no entry for it and its
count at 0; likewise one release after the one allocation of a value
placeholder clears its value-table entry.
(3) Releasing is safe beyond that: a release of an absent or zero-count
placeholder returns the state unchanged, and counts never become
negative. -/
theorem c6_refcount_invariant :
    ((∀ e, TrackerInv (initTracker e)) ∧
     (∀ (t : ReferenceTracker) (s : String), TrackerInv t → TrackerInv (name_ref t s).2) ∧
     (∀ (t t1 : ReferenceTracker) (col : Column) (v : Option String) (d i : Bool)
        (ref : String × Option String), TrackerInv t →
        value_ref t col v d i = (.ok ref, t1) → TrackerInv t1) ∧
     (∀ (t : ReferenceTracker) (ref : Reference), TrackerInv t → RefOk t ref →
        TrackerInv (popRef t ref)) ∧
     (∀ t : ReferenceTracker, TrackerInv t → ∀ r,
        ((alookup t.attr_names r).isSome ∨ (alookup t.attr_values r).isSome) ↔
          1 ≤ countGet t r)) ∧
    ((∀ (t : ReferenceTracker) (s : String) (k : Nat), 1 ≤ k → TrackerInv t →
        alookup t.name_attr_index s = none →
        alookup (popN k (allocNameN k t s)
            ⟨nref t.next_index, "name", none⟩).attr_names (nref t.next_index) = none ∧
        countGet (popN k (allocNameN k t s)
            ⟨nref t.next_index, "name", none⟩) (nref t.next_index) = 0) ∧
     (∀ (t t1 : ReferenceTracker) (col : Column) (v : Option String) (d i : Bool)
        (rv : String) (w : Option String), TrackerInv t →
        value_ref t col v d i = (.ok (rv, w), t1) →
        alookup (popRef t1 ⟨rv, "value", w⟩).attr_values rv = none ∧
        countGet (popRef t1 ⟨rv, "value", w⟩) rv = 0)) ∧
    ((∀ (t : ReferenceTracker) (ref : Reference), countGet t ref.name < 1 →
        popRef t ref = t) ∧
     (∀ t : ReferenceTracker, (∀ r, 0 ≤ countGet t r) →
        ∀ (ref : Reference) (r : String), 0 ≤ countGet (popRef t ref) r)) := by
  refine ⟨⟨tinv_init, fun t s h => tinv_name_ref h s,
      fun t t1 col v d i ref h hres => tinv_value_ref h hres,
      fun t ref h hok => tinv_popRef h hok,
      fun t h => h.mem_iff⟩, ⟨?_, ?_⟩,
    ⟨fun t ref h => popRef_zero h, fun t h ref r => popRef_nonneg h ref r⟩⟩
  · intro t s k hk hinv hidx
    obtain ⟨k0, rfl⟩ : ∃ k0, k = k0 + 1 := ⟨k - 1, by omega⟩
    have h1 := name_ref_fresh hidx
    have hstep : allocNameN (k0 + 1) t s = allocNameN k0 (name_ref t s).2 s := rfl
    have hidx2 : alookup (name_ref t s).2.name_attr_index s =
        some (nref t.next_index) := by
      rw [h1]; exact alookup_dictInsert_self _ _ _
    obtain ⟨e1, e2, e3, e4⟩ := allocNameN_dedup k0 (name_ref t s).2 s
      (nref t.next_index) hidx2
    have hcnt1 : countGet (name_ref t s).2 (nref t.next_index) = 1 := by
      rw [h1]
      show (alookup (dictInsert t.counts (nref t.next_index)
        (countGet t (nref t.next_index) + 1)) (nref t.next_index)).getD 0 = 1
      rw [alookup_dictInsert_self, hinv.fresh_count_n (Nat.le_refl _)]
      norm_num
    have hnames1 : alookup (name_ref t s).2.attr_names (nref t.next_index) = some s := by
      rw [h1]
      show alookup (dictInsert t.attr_names (nref t.next_index) s) (nref t.next_index) = some s
      exact alookup_dictInsert_self _ _ _
    have hcfin : countGet (allocNameN k0 (name_ref t s).2 s) (nref t.next_index) =
        ((k0 + 1 : Nat) : Int) := by
      rw [e4, hcnt1]
      push_cast
      ring
    have hnfin : alookup (allocNameN k0 (name_ref t s).2 s).attr_names
        (nref t.next_index) = some s := by
      rw [e1]; exact hnames1
    rw [hstep]
    exact popN_name_clears (k0 + 1) _ (nref t.next_index) s none (by omega) hcfin hnfin
  · intro t t1 col v d i rv w hinv hres
    have hvs := valueStep_of_value_ref hinv hres
    have hstep := @popRef_last_value t1 ⟨rv, "value", w⟩
      hvs.count_self rfl
    rw [hstep]
    constructor
    · exact alookup_dictRemove_self _ _
    · show (alookup (dictInsert t1.counts rv (countGet t1 rv - 1)) rv).getD 0 = 0
      rw [alookup_dictInsert_self, hvs.count_self]
      norm_num

/-- C6 (witness): the invariant and clearing behavior on concrete states:
the fresh tracker satisfies the invariant; allocating `"a"` twice and
releasing twice clears the name table; releasing a value ref once clears
its entry; over-releasing a fresh tracker is a no-op. -/
theorem c6_refcount_invariant_witness :
    TrackerInv t0 ∧
    (alookup (popN 2 (allocNameN 2 t0 "a") ⟨nref 0, "name", none⟩).attr_names
      (nref 0) = none) ∧
    popRef t0 ⟨"#n5", "name", none⟩ = t0 := by
  refine ⟨c6_refcount_invariant.1.1 idEngine, ?_, ?_⟩
  · exact (c6_refcount_invariant.2.1.1 t0 "a" 2 (by omega)
      (c6_refcount_invariant.1.1 idEngine) rfl).1
  · exact c6_refcount_invariant.2.2.1 t0 ⟨"#n5", "name", none⟩ (by norm_num [countGet, t0, initTracker, alookup])

/-! ## C1 — unwinding on a None operand -/

theorem alookup_append_none_left {κ : Type} [DecidableEq κ] {α : Type}
    {l l' : List (κ × α)} {k : κ} (h : alookup (l ++ l') k = none) :
    alookup l k = none := by
  rw [alookup_append] at h
  cases hcase : alookup l k with
  | none => rfl
  | some w => simp [hcase] at h

theorem alookup_append_none_right {κ : Type} [DecidableEq κ] {α : Type}
    {l l' : List (κ × α)} {k : κ} (h : alookup (l ++ l') k = none) :
    alookup l' k = none := by
  rw [alookup_append] at h
  cases hcase : alookup l k with
  | none => rwa [hcase] at h
  | some w => simp [hcase] at h

/-- Releasing a count-1 value placeholder removes exactly its entry. -/
theorem popRef_value_remove {t2 : ReferenceTracker} {rv : String} {w vv : Option String}
    {A B : List (String × Option String)}
    (hv : t2.attr_values = A ++ (rv, w) :: B)
    (hc : countGet t2 rv = 1)
    (hA : alookup A rv = none) (hB : alookup B rv = none) :
    (popRef t2 ⟨rv, "value", vv⟩).attr_values = A ++ B ∧
    (popRef t2 ⟨rv, "value", vv⟩).attr_names = t2.attr_names ∧
    (∀ r, r ≠ rv → countGet (popRef t2 ⟨rv, "value", vv⟩) r = countGet t2 r) := by
  rw [@popRef_last_value t2 ⟨rv, "value", vv⟩ hc rfl]
  refine ⟨?_, rfl, ?_⟩
  · show dictRemove t2.attr_values rv = _
    rw [hv, dictRemove_append, dictRemove_of_none hA]
    have hhd : dictRemove ((rv, w) :: B) rv = dictRemove B rv := by
      simp [dictRemove]
    rw [hhd, dictRemove_of_none hB]
  · intro r hr
    show (alookup (dictInsert t2.counts rv _) r).getD 0 = _
    rw [alookup_dictInsert_ne _ _ hr]
    rfl

/-- A key absent from a list's first components looks up to nothing. -/
theorem alookup_eq_none_of_not_mem {κ : Type} [DecidableEq κ] {α : Type}
    {l : List (κ × α)} {k : κ} (h : k ∉ l.map Prod.fst) : alookup l k = none := by
  induction l with
  | nil => rfl
  | cons q rest ih =>
    obtain ⟨a, b⟩ := q
    simp only [List.map_cons, List.mem_cons] at h
    push_neg at h
    by_cases ha : a = k
    · exact absurd ha (fun hh => h.1 hh.symm)
    · simp [alookup, ha, ih h.2]

/-- Releasing, in allocation order, a block of freshly allocated count-1
value placeholders removes exactly their entries. -/
theorem pop_value_chain :
    ∀ (entries : List (String × Option String)) (refs : List Reference)
      (t2 : ReferenceTracker) (A : List (String × Option String)),
      t2.attr_values = A ++ entries →
      (∀ p ∈ entries, countGet t2 p.1 = 1) →
      (∀ p ∈ entries, alookup A p.1 = none) →
      (entries.map Prod.fst).Nodup →
      refs.map Reference.name = entries.map Prod.fst →
      (∀ ref ∈ refs, ref.type = "value") →
      (pop_refs t2 refs).attr_values = A ∧
      (pop_refs t2 refs).attr_names = t2.attr_names ∧
      (∀ r, (∀ p ∈ entries, r ≠ p.1) → countGet (pop_refs t2 refs) r = countGet t2 r) := by
  intro entries
  induction entries with
  | nil =>
    intro refs t2 A hv hc hA hnd hmap hty
    have : refs = [] := by
      cases refs with
      | nil => rfl
      | cons a l => simp at hmap
    subst this
    exact ⟨by simpa using hv, rfl, fun r _ => rfl⟩
  | cons e rest ih =>
    intro refs t2 A hv hc hA hnd hmap hty
    obtain ⟨a, l, rfl⟩ : ∃ a l, refs = a :: l := by
      cases refs with
      | nil => simp at hmap
      | cons a l => exact ⟨a, l, rfl⟩
    obtain ⟨e1, e2⟩ := e
    obtain ⟨n, ty, vv⟩ := a
    simp only [List.map_cons, List.cons.injEq] at hmap
    have hname : n = e1 := hmap.1
    have hty1 : ty = "value" := hty ⟨n, ty, vv⟩ (by simp)
    subst hname
    subst hty1
    simp only [List.map_cons, List.nodup_cons] at hnd
    have hnotrest : alookup rest n = none :=
      alookup_eq_none_of_not_mem hnd.1
    obtain ⟨p1, p2, p3⟩ := @popRef_value_remove t2 n e2 vv A rest
      hv (hc (n, e2) (by simp))
      (hA (n, e2) (by simp)) hnotrest
    have hstep : pop_refs t2 (⟨n, "value", vv⟩ :: l) =
        pop_refs (popRef t2 ⟨n, "value", vv⟩) l := rfl
    rw [hstep]
    obtain ⟨q1, q2, q3⟩ := ih l (popRef t2 ⟨n, "value", vv⟩) A p1
      (fun p hp => by
        rw [p3 p.1 (fun hh => by
          apply hnd.1
          rw [← hh]
          exact List.mem_map_of_mem Prod.fst hp)]
        exact hc p (by simp [hp]))
      (fun p hp => hA p (by simp [hp])) hnd.2 hmap.2
      (fun ref hr => hty ref (by simp [hr]))
    refine ⟨q1, by rw [q2, p2], ?_⟩
    intro r hr
    rw [q3 r (fun p hp => hr p (by simp [hp])), p3 r (hr (n, e2) (by simp))]

theorem path_ref_flat {col : Column} (hflat : col.path = []) (t : ReferenceTracker) :
    path_ref t col = name_ref t col.dynamo_name := by
  unfold path_ref
  rw [hflat]
  rfl

/-- Popping the node's name ref and then its freshly allocated value refs,
in allocation order, restores both tables to the pre-node state. -/
theorem pop_name_then_values {t t1 tk : ReferenceTracker} {rn : String}
    (ns : NameStep t t1 rn)
    (entries : List (String × Option String)) (vrefs : List Reference)
    (hv : tk.attr_values = t1.attr_values ++ entries)
    (hn : tk.attr_names = t1.attr_names)
    (hcn : countGet tk rn = countGet t1 rn)
    (hce : ∀ p ∈ entries, countGet tk p.1 = 1)
    (hA : ∀ p ∈ entries, alookup t1.attr_values p.1 = none)
    (hnd : (entries.map Prod.fst).Nodup)
    (hmap : vrefs.map Reference.name = entries.map Prod.fst)
    (hty : ∀ ref ∈ vrefs, ref.type = "value")
    (hrn_not : ∀ p ∈ entries, rn ≠ p.1)
    (vv : Option String) :
    (pop_refs tk (⟨rn, "name", vv⟩ :: vrefs)).attr_names = t.attr_names ∧
    (pop_refs tk (⟨rn, "name", vv⟩ :: vrefs)).attr_values = t.attr_values := by
  obtain ⟨m1, m2, m3⟩ := @popstep_name t t1 tk rn ns []
    (by rw [hn, List.append_nil]) hcn rfl vv
  have hv2 : (popRef tk ⟨rn, "name", vv⟩).attr_values = t1.attr_values ++ entries := by
    rw [m2, hv]
  have hce2 : ∀ p ∈ entries, countGet (popRef tk ⟨rn, "name", vv⟩) p.1 = 1 := by
    intro p hp
    rw [m3 p.1 (Ne.symm (hrn_not p hp))]
    exact hce p hp
  obtain ⟨q1, q2, q3⟩ := pop_value_chain entries vrefs (popRef tk ⟨rn, "name", vv⟩)
    t1.attr_values hv2 hce2 hA hnd hmap hty
  have hstep : pop_refs tk (⟨rn, "name", vv⟩ :: vrefs) =
      pop_refs (popRef tk ⟨rn, "name", vv⟩) vrefs := rfl
  rw [hstep]
  constructor
  · rw [q2, m1, List.append_nil]
  · rw [q1, ns.values_eq]

theorem c1aux_comparison (t : ReferenceTracker) (hinv : TrackerInv t)
    (col : Column) (hflat : col.path = []) (op : String) (v : Option String)
    (dmp : Bool) (m : String) (t' : ReferenceTracker)
    (hres : renderCond (.comparison op col (.lit v) dmp) t =
      (.error (.invalidCondition m), t')) :
    t'.attr_names = t.attr_names ∧ t'.attr_values = t.attr_values := by
  have hpr : path_ref t col = name_ref t col.dynamo_name := path_ref_flat hflat t
  have hcref : any_ref t col none dmp false =
      (.ok ⟨(name_ref t col.dynamo_name).1, "name", none⟩,
        (name_ref t col.dynamo_name).2) := by
    rw [← hpr]
    rfl
  have ns := nameStep_of_name_ref hinv col.dynamo_name
  cases hw : dumpResult (name_ref t col.dynamo_name).2 col v dmp false with
  | none =>
    have hvref : any_ref (name_ref t col.dynamo_name).2 col (some (.lit v)) dmp false =
        (.error .pyError,
          { (name_ref t col.dynamo_name).2 with
              next_index := (name_ref t col.dynamo_name).2.next_index + 1 }) := by
      simp only [any_ref, value_ref_err hw]
    simp only [renderCond, hcref, hvref] at hres
    have := congrArg Prod.fst hres
    simp only at this
    exact absurd (Except.error.inj this) (fun hh => BloopError.noConfusion hh)
  | some w =>
    have hvr := value_ref_ok hw
    have hvr2 : value_ref (name_ref t col.dynamo_name).2 col v dmp false =
        (.ok (vref (name_ref t col.dynamo_name).2.next_index, w),
          (value_ref (name_ref t col.dynamo_name).2 col v dmp false).2) := by
      rw [hvr]
    have vs := valueStep_of_value_ref ns.inv hvr2
    have hvref : any_ref (name_ref t col.dynamo_name).2 col (some (.lit v)) dmp false =
        (.ok ⟨vref (name_ref t col.dynamo_name).2.next_index, "value", w⟩,
          (value_ref (name_ref t col.dynamo_name).2 col v dmp false).2) := by
      conv_lhs => rw [show any_ref (name_ref t col.dynamo_name).2 col (some (.lit v)) dmp false =
        (match value_ref (name_ref t col.dynamo_name).2 col v dmp false with
         | (.ok (name, w2), t2) =>
           (.ok { name := name, type := "value", value := w2 }, t2)
         | (.error e, t2) => (.error e, t2)) from rfl]
      rw [hvr2]
    simp only [renderCond, hcref, hvref] at hres
    obtain ⟨j, hj⟩ := ns.is_nref
    have hrnrv : (name_ref t col.dynamo_name).1 ≠
        vref (name_ref t col.dynamo_name).2.next_index := by
      rw [hj]; exact nref_ne_vref _ _
    cases w with
    | some x =>
      simp only [show (("value" == "name" ||
        (some x : Option String) != none)) = true by rfl, if_pos] at hres
      cases halias : alookup comparison_aliases op with
      | none =>
        rw [halias] at hres
        have := congrArg Prod.fst hres
        simp only at this
        exact absurd (Except.error.inj this) (fun hh => BloopError.noConfusion hh)
      | some al =>
        rw [halias] at hres
        have := congrArg Prod.fst hres
        simp only at this
        exact absurd this (fun hh => Except.noConfusion hh)
    | none =>
      simp only [show (("value" == "name" ||
        (none : Option String) != none)) = false by rfl, Bool.false_eq_true,
        if_false] at hres
      cases hop : (op == "==" || op == "!=") with
      | true =>
        rw [hop] at hres
        simp only [if_pos] at hres
        have := congrArg Prod.fst hres
        simp only at this
        exact absurd this (fun hh => Except.noConfusion hh)
      | false =>
        rw [hop] at hres
        simp only [Bool.false_eq_true, if_false] at hres
        have hsnd := congrArg Prod.snd hres
        simp only at hsnd
        obtain ⟨r1, r2⟩ := pop_name_then_values ns
          [(vref (name_ref t col.dynamo_name).2.next_index, none)]
          [⟨vref (name_ref t col.dynamo_name).2.next_index, "value", none⟩]
          (by rw [vs.values_eq])
          vs.names_eq
          (vs.count_other _ hrnrv)
          (by intro p hp; rw [List.mem_singleton] at hp; subst hp; exact vs.count_self)
          (by intro p hp; rw [List.mem_singleton] at hp; subst hp; exact vs.fresh)
          (by simp)
          (by simp)
          (by intro ref hr; rw [List.mem_singleton] at hr; subst hr; rfl)
          (by intro p hp; rw [List.mem_singleton] at hp; subst hp; exact hrnrv)
          none
        rw [← hsnd]
        exact ⟨r1, r2⟩

/-- Popping a node's freshly bumped name ref and then its one freshly
allocated value ref restores both tables to the pre-node state. -/
theorem restore_nv (t : ReferenceTracker) (hinv : TrackerInv t) (s : String)
    (col : Column) (v w : Option String) (dmp inner : Bool)
    (hw : dumpResult (name_ref t s).2 col v dmp inner = some w)
    (vv : Option String) :
    (pop_refs (value_ref (name_ref t s).2 col v dmp inner).2
        [⟨(name_ref t s).1, "name", vv⟩,
         ⟨vref (name_ref t s).2.next_index, "value", w⟩]).attr_names = t.attr_names ∧
    (pop_refs (value_ref (name_ref t s).2 col v dmp inner).2
        [⟨(name_ref t s).1, "name", vv⟩,
         ⟨vref (name_ref t s).2.next_index, "value", w⟩]).attr_values = t.attr_values := by
  have ns := nameStep_of_name_ref hinv s
  have hvr := value_ref_ok hw
  have hvr2 : value_ref (name_ref t s).2 col v dmp inner =
      (.ok (vref (name_ref t s).2.next_index, w),
        (value_ref (name_ref t s).2 col v dmp inner).2) := by
    rw [hvr]
  have vs := valueStep_of_value_ref ns.inv hvr2
  obtain ⟨j, hj⟩ := ns.is_nref
  have hrnrv : (name_ref t s).1 ≠ vref (name_ref t s).2.next_index := by
    rw [hj]; exact nref_ne_vref _ _
  exact pop_name_then_values ns
    [(vref (name_ref t s).2.next_index, w)]
    [⟨vref (name_ref t s).2.next_index, "value", w⟩]
    (by rw [vs.values_eq])
    vs.names_eq
    (vs.count_other _ hrnrv)
    (by intro p hp; rw [List.mem_singleton] at hp; subst hp; exact vs.count_self)
    (by intro p hp; rw [List.mem_singleton] at hp; subst hp; exact vs.fresh)
    (by simp)
    (by simp)
    (by intro ref hr; rw [List.mem_singleton] at hr; subst hr; rfl)
    (by intro p hp; rw [List.mem_singleton] at hp; subst hp; exact hrnrv)
    vv

/-- `BeginsWith.render` on a `None` literal operand restores the tables on
raise (single-segment column). -/
theorem c1aux_begins (t : ReferenceTracker) (hinv : TrackerInv t)
    (col : Column) (hflat : col.path = []) (v : Option String)
    (dmp : Bool) (m : String) (t' : ReferenceTracker)
    (hres : renderCond (.begins_with col (.lit v) dmp) t =
      (.error (.invalidCondition m), t')) :
    t'.attr_names = t.attr_names ∧ t'.attr_values = t.attr_values := by
  have hpr : path_ref t col = name_ref t col.dynamo_name := path_ref_flat hflat t
  have hcref : any_ref t col none dmp false =
      (.ok ⟨(name_ref t col.dynamo_name).1, "name", none⟩,
        (name_ref t col.dynamo_name).2) := by
    rw [← hpr]
    rfl
  cases hw : dumpResult (name_ref t col.dynamo_name).2 col v dmp false with
  | none =>
    have hvref : any_ref (name_ref t col.dynamo_name).2 col (some (.lit v)) dmp false =
        (.error .pyError,
          { (name_ref t col.dynamo_name).2 with
              next_index := (name_ref t col.dynamo_name).2.next_index + 1 }) := by
      simp only [any_ref, value_ref_err hw]
    simp only [renderCond, hcref, hvref] at hres
    have := congrArg Prod.fst hres
    simp only at this
    exact absurd (Except.error.inj this) (fun hh => BloopError.noConfusion hh)
  | some w =>
    have hvr := value_ref_ok hw
    have hvr2 : value_ref (name_ref t col.dynamo_name).2 col v dmp false =
        (.ok (vref (name_ref t col.dynamo_name).2.next_index, w),
          (value_ref (name_ref t col.dynamo_name).2 col v dmp false).2) := by
      rw [hvr]
    have hvref : any_ref (name_ref t col.dynamo_name).2 col (some (.lit v)) dmp false =
        (.ok ⟨vref (name_ref t col.dynamo_name).2.next_index, "value", w⟩,
          (value_ref (name_ref t col.dynamo_name).2 col v dmp false).2) := by
      conv_lhs => rw [show any_ref (name_ref t col.dynamo_name).2 col (some (.lit v)) dmp false =
        (match value_ref (name_ref t col.dynamo_name).2 col v dmp false with
         | (.ok (name, w2), t2) =>
           (.ok { name := name, type := "value", value := w2 }, t2)
         | (.error e, t2) => (.error e, t2)) from rfl]
      rw [hvr2]
    simp only [renderCond, hcref, hvref] at hres
    cases w with
    | some x =>
      simp only [show is_empty ⟨vref (name_ref t col.dynamo_name).2.next_index,
        "value", some x⟩ = false from rfl, Bool.false_eq_true, if_false] at hres
      have := congrArg Prod.fst hres
      simp only at this
      exact absurd this (fun hh => Except.noConfusion hh)
    | none =>
      simp only [show is_empty ⟨vref (name_ref t col.dynamo_name).2.next_index,
        "value", none⟩ = true from rfl, if_true] at hres
      have hsnd := congrArg Prod.snd hres
      simp only at hsnd
      rw [← hsnd]
      exact restore_nv t hinv col.dynamo_name col v none dmp false hw none

/-- `Contains.render` on a `None` literal operand restores the tables on
raise (single-segment column); the operand dumps through the inner type. -/
theorem c1aux_contains (t : ReferenceTracker) (hinv : TrackerInv t)
    (col : Column) (hflat : col.path = []) (v : Option String)
    (dmp : Bool) (m : String) (t' : ReferenceTracker)
    (hres : renderCond (.contains col (.lit v) dmp) t =
      (.error (.invalidCondition m), t')) :
    t'.attr_names = t.attr_names ∧ t'.attr_values = t.attr_values := by
  have hpr : path_ref t col = name_ref t col.dynamo_name := path_ref_flat hflat t
  have hcref : any_ref t col none dmp false =
      (.ok ⟨(name_ref t col.dynamo_name).1, "name", none⟩,
        (name_ref t col.dynamo_name).2) := by
    rw [← hpr]
    rfl
  cases hw : dumpResult (name_ref t col.dynamo_name).2 col v dmp true with
  | none =>
    have hvref : any_ref (name_ref t col.dynamo_name).2 col (some (.lit v)) dmp true =
        (.error .pyError,
          { (name_ref t col.dynamo_name).2 with
              next_index := (name_ref t col.dynamo_name).2.next_index + 1 }) := by
      simp only [any_ref, value_ref_err hw]
    simp only [renderCond, hcref, hvref] at hres
    have := congrArg Prod.fst hres
    simp only at this
    exact absurd (Except.error.inj this) (fun hh => BloopError.noConfusion hh)
  | some w =>
    have hvr := value_ref_ok hw
    have hvr2 : value_ref (name_ref t col.dynamo_name).2 col v dmp true =
        (.ok (vref (name_ref t col.dynamo_name).2.next_index, w),
          (value_ref (name_ref t col.dynamo_name).2 col v dmp true).2) := by
      rw [hvr]
    have hvref : any_ref (name_ref t col.dynamo_name).2 col (some (.lit v)) dmp true =
        (.ok ⟨vref (name_ref t col.dynamo_name).2.next_index, "value", w⟩,
          (value_ref (name_ref t col.dynamo_name).2 col v dmp true).2) := by
      conv_lhs => rw [show any_ref (name_ref t col.dynamo_name).2 col (some (.lit v)) dmp true =
        (match value_ref (name_ref t col.dynamo_name).2 col v dmp true with
         | (.ok (name, w2), t2) =>
           (.ok { name := name, type := "value", value := w2 }, t2)
         | (.error e, t2) => (.error e, t2)) from rfl]
      rw [hvr2]
    simp only [renderCond, hcref, hvref] at hres
    cases w with
    | some x =>
      simp only [show is_empty ⟨vref (name_ref t col.dynamo_name).2.next_index,
        "value", some x⟩ = false from rfl, Bool.false_eq_true, if_false] at hres
      have := congrArg Prod.fst hres
      simp only at this
      exact absurd this (fun hh => Except.noConfusion hh)
    | none =>
      simp only [show is_empty ⟨vref (name_ref t col.dynamo_name).2.next_index,
        "value", none⟩ = true from rfl, if_true] at hres
      have hsnd := congrArg Prod.snd hres
      simp only at hsnd
      rw [← hsnd]
      exact restore_nv t hinv col.dynamo_name col v none dmp true hw none

/-- Popping a node's name ref and then its two freshly allocated value
refs, in allocation order, restores both tables to the pre-node state. -/
theorem restore_nvv (t : ReferenceTracker) (hinv : TrackerInv t) (s : String)
    (col : Column) (v1 v2 w1 w2 : Option String) (dmp : Bool)
    (hw1 : dumpResult (name_ref t s).2 col v1 dmp false = some w1)
    (hw2 : dumpResult (value_ref (name_ref t s).2 col v1 dmp false).2
      col v2 dmp false = some w2)
    (vv : Option String) :
    (pop_refs (value_ref (value_ref (name_ref t s).2 col v1 dmp false).2
        col v2 dmp false).2
        [⟨(name_ref t s).1, "name", vv⟩,
         ⟨vref (name_ref t s).2.next_index, "value", w1⟩,
         ⟨vref (value_ref (name_ref t s).2 col v1 dmp false).2.next_index,
           "value", w2⟩]).attr_names = t.attr_names ∧
    (pop_refs (value_ref (value_ref (name_ref t s).2 col v1 dmp false).2
        col v2 dmp false).2
        [⟨(name_ref t s).1, "name", vv⟩,
         ⟨vref (name_ref t s).2.next_index, "value", w1⟩,
         ⟨vref (value_ref (name_ref t s).2 col v1 dmp false).2.next_index,
           "value", w2⟩]).attr_values = t.attr_values := by
  have ns := nameStep_of_name_ref hinv s
  have hvr1 := value_ref_ok hw1
  have hvr1h : value_ref (name_ref t s).2 col v1 dmp false =
      (.ok (vref (name_ref t s).2.next_index, w1),
        (value_ref (name_ref t s).2 col v1 dmp false).2) := by
    rw [hvr1]
  have vs1 := valueStep_of_value_ref ns.inv hvr1h
  have hvr2 := value_ref_ok hw2
  have hvr2h : value_ref (value_ref (name_ref t s).2 col v1 dmp false).2
      col v2 dmp false =
      (.ok (vref (value_ref (name_ref t s).2 col v1 dmp false).2.next_index, w2),
        (value_ref (value_ref (name_ref t s).2 col v1 dmp false).2
          col v2 dmp false).2) := by
    rw [hvr2]
  have vs2 := valueStep_of_value_ref vs1.inv hvr2h
  have hnext : (value_ref (name_ref t s).2 col v1 dmp false).2.next_index =
      (name_ref t s).2.next_index + 1 := by
    rw [hvr1]
  have hr12 : vref (name_ref t s).2.next_index ≠
      vref (value_ref (name_ref t s).2 col v1 dmp false).2.next_index := by
    rw [hnext]
    intro hh
    have := vref_inj hh
    omega
  obtain ⟨j, hj⟩ := ns.is_nref
  have hrn1 : (name_ref t s).1 ≠ vref (name_ref t s).2.next_index := by
    rw [hj]; exact nref_ne_vref _ _
  have hrn2 : (name_ref t s).1 ≠
      vref (value_ref (name_ref t s).2 col v1 dmp false).2.next_index := by
    rw [hj]; exact nref_ne_vref _ _
  exact pop_name_then_values ns
    [(vref (name_ref t s).2.next_index, w1),
     (vref (value_ref (name_ref t s).2 col v1 dmp false).2.next_index, w2)]
    [⟨vref (name_ref t s).2.next_index, "value", w1⟩,
     ⟨vref (value_ref (name_ref t s).2 col v1 dmp false).2.next_index, "value", w2⟩]
    (by rw [vs2.values_eq, vs1.values_eq]; simp)
    (vs2.names_eq.trans vs1.names_eq)
    (by rw [vs2.count_other _ hrn2, vs1.count_other _ hrn1])
    (by
      intro p hp
      simp only [List.mem_cons, List.mem_singleton, List.not_mem_nil, or_false] at hp
      rcases hp with rfl | rfl
      · rw [vs2.count_other _ hr12]
        exact vs1.count_self
      · exact vs2.count_self)
    (by
      intro p hp
      simp only [List.mem_cons, List.mem_singleton, List.not_mem_nil, or_false] at hp
      rcases hp with rfl | rfl
      · exact vs1.fresh
      · have := vs2.fresh
        rw [vs1.values_eq] at this
        exact alookup_append_none_left this)
    (by simp [hr12])
    (by simp)
    (by
      intro ref hr
      simp only [List.mem_cons, List.mem_singleton, List.not_mem_nil, or_false] at hr
      rcases hr with rfl | rfl <;> rfl)
    (by
      intro p hp
      simp only [List.mem_cons, List.mem_singleton, List.not_mem_nil, or_false] at hp
      rcases hp with rfl | rfl
      · exact hrn1
      · exact hrn2)
    vv

/-- `Between.render` with a `None` among its two literal bounds restores
the tables on raise (single-segment column). -/
theorem c1aux_between (t : ReferenceTracker) (hinv : TrackerInv t)
    (col : Column) (hflat : col.path = []) (v1 v2 : Option String)
    (dmp : Bool) (m : String) (t' : ReferenceTracker)
    (hres : renderCond (.between col (.lit v1) (.lit v2) dmp) t =
      (.error (.invalidCondition m), t')) :
    t'.attr_names = t.attr_names ∧ t'.attr_values = t.attr_values := by
  have hpr : path_ref t col = name_ref t col.dynamo_name := path_ref_flat hflat t
  have hcref : any_ref t col none dmp false =
      (.ok ⟨(name_ref t col.dynamo_name).1, "name", none⟩,
        (name_ref t col.dynamo_name).2) := by
    rw [← hpr]
    rfl
  cases hw1 : dumpResult (name_ref t col.dynamo_name).2 col v1 dmp false with
  | none =>
    have hvref1 : any_ref (name_ref t col.dynamo_name).2 col (some (.lit v1)) dmp false =
        (.error .pyError,
          { (name_ref t col.dynamo_name).2 with
              next_index := (name_ref t col.dynamo_name).2.next_index + 1 }) := by
      simp only [any_ref, value_ref_err hw1]
    simp only [renderCond, hcref, hvref1] at hres
    have := congrArg Prod.fst hres
    simp only at this
    exact absurd (Except.error.inj this) (fun hh => BloopError.noConfusion hh)
  | some w1 =>
    have hvr1h : value_ref (name_ref t col.dynamo_name).2 col v1 dmp false =
        (.ok (vref (name_ref t col.dynamo_name).2.next_index, w1),
          (value_ref (name_ref t col.dynamo_name).2 col v1 dmp false).2) := by
      rw [value_ref_ok hw1]
    have hvref1 : any_ref (name_ref t col.dynamo_name).2 col (some (.lit v1)) dmp false =
        (.ok ⟨vref (name_ref t col.dynamo_name).2.next_index, "value", w1⟩,
          (value_ref (name_ref t col.dynamo_name).2 col v1 dmp false).2) := by
      conv_lhs => rw [show any_ref (name_ref t col.dynamo_name).2 col
          (some (.lit v1)) dmp false =
        (match value_ref (name_ref t col.dynamo_name).2 col v1 dmp false with
         | (.ok (name, w2), t2) =>
           (.ok { name := name, type := "value", value := w2 }, t2)
         | (.error e, t2) => (.error e, t2)) from rfl]
      rw [hvr1h]
    cases hw2 : dumpResult (value_ref (name_ref t col.dynamo_name).2 col v1 dmp
        false).2 col v2 dmp false with
    | none =>
      have hvref2 : any_ref (value_ref (name_ref t col.dynamo_name).2 col v1 dmp
          false).2 col (some (.lit v2)) dmp false =
          (.error .pyError,
            { (value_ref (name_ref t col.dynamo_name).2 col v1 dmp false).2 with
                next_index := (value_ref (name_ref t col.dynamo_name).2 col v1 dmp
                  false).2.next_index + 1 }) := by
        simp only [any_ref, value_ref_err hw2]
      simp only [renderCond, hcref, hvref1, hvref2] at hres
      have := congrArg Prod.fst hres
      simp only at this
      exact absurd (Except.error.inj this) (fun hh => BloopError.noConfusion hh)
    | some w2 =>
      have hvr2h : value_ref (value_ref (name_ref t col.dynamo_name).2 col v1 dmp
          false).2 col v2 dmp false =
          (.ok (vref (value_ref (name_ref t col.dynamo_name).2 col v1 dmp
              false).2.next_index, w2),
            (value_ref (value_ref (name_ref t col.dynamo_name).2 col v1 dmp
              false).2 col v2 dmp false).2) := by
        rw [value_ref_ok hw2]
      have hvref2 : any_ref (value_ref (name_ref t col.dynamo_name).2 col v1 dmp
          false).2 col (some (.lit v2)) dmp false =
          (.ok ⟨vref (value_ref (name_ref t col.dynamo_name).2 col v1 dmp
              false).2.next_index, "value", w2⟩,
            (value_ref (value_ref (name_ref t col.dynamo_name).2 col v1 dmp
              false).2 col v2 dmp false).2) := by
        conv_lhs => rw [show any_ref (value_ref (name_ref t col.dynamo_name).2 col
            v1 dmp false).2 col (some (.lit v2)) dmp false =
          (match value_ref (value_ref (name_ref t col.dynamo_name).2 col v1 dmp
              false).2 col v2 dmp false with
           | (.ok (name, w2), t2) =>
             (.ok { name := name, type := "value", value := w2 }, t2)
           | (.error e, t2) => (.error e, t2)) from rfl]
        rw [hvr2h]
      simp only [renderCond, hcref, hvref1, hvref2] at hres
      cases w1 with
      | some x1 =>
        cases w2 with
        | some x2 =>
          simp only [show (is_empty ⟨vref (name_ref t col.dynamo_name).2.next_index,
              "value", some x1⟩ ||
            is_empty ⟨vref (value_ref (name_ref t col.dynamo_name).2 col v1 dmp
              false).2.next_index, "value", some x2⟩) = false from rfl,
            Bool.false_eq_true, if_false] at hres
          have := congrArg Prod.fst hres
          simp only at this
          exact absurd this (fun hh => Except.noConfusion hh)
        | none =>
          simp only [show (is_empty ⟨vref (name_ref t col.dynamo_name).2.next_index,
              "value", some x1⟩ ||
            is_empty ⟨vref (value_ref (name_ref t col.dynamo_name).2 col v1 dmp
              false).2.next_index, "value", none⟩) = true from rfl, if_true] at hres
          have hsnd := congrArg Prod.snd hres
          simp only at hsnd
          rw [← hsnd]
          exact restore_nvv t hinv col.dynamo_name col v1 v2 (some x1) none dmp
            hw1 hw2 none
      | none =>
        simp only [show (is_empty ⟨vref (name_ref t col.dynamo_name).2.next_index,
            "value", none⟩ ||
          is_empty ⟨vref (value_ref (name_ref t col.dynamo_name).2 col v1 dmp
            false).2.next_index, "value", w2⟩) = true from rfl, if_true] at hres
        have hsnd := congrArg Prod.snd hres
        simp only at hsnd
        rw [← hsnd]
        exact restore_nvv t hinv col.dynamo_name col v1 v2 none w2 dmp hw1 hw2 none

/-- The `InCondition.render` loop over literal operands: when it raises on
the first `None` value it has already released every value ref it
allocated, together with the block `acc`/`entries` it inherited. -/
theorem inLoop_restore (col : Column) (dmp : Bool) (msg m : String)
    (t0 : ReferenceTracker) :
    ∀ (values : List CVal) (t : ReferenceTracker) (acc : List Reference)
      (entries : List (String × Option String)) (t' : ReferenceTracker),
      TrackerInv t →
      t.attr_values = t0.attr_values ++ entries →
      t.attr_names = t0.attr_names →
      acc.map Reference.name = entries.map Prod.fst →
      (∀ r ∈ acc, r.type = "value") →
      (∀ p ∈ entries, countGet t p.1 = 1) →
      (∀ p ∈ entries, alookup t0.attr_values p.1 = none) →
      (entries.map Prod.fst).Nodup →
      (∀ p ∈ entries, ∃ i, p.1 = vref i ∧ i < t.next_index) →
      (∀ v ∈ values, ∃ x, v = CVal.lit x) →
      inLoop col dmp msg t values acc = (.error (.invalidCondition m), t') →
      t'.attr_names = t0.attr_names ∧ t'.attr_values = t0.attr_values := by
  intro values
  induction values with
  | nil =>
    intro t acc entries t' _ _ _ _ _ _ _ _ _ _ hres
    have h1 := congrArg Prod.fst hres
    simp only [inLoop] at h1
    exact absurd h1 (fun hh => Except.noConfusion hh)
  | cons v rest ih =>
    intro t acc entries t' hinv happ hnames hmap hty hcounts hA0 hnd0 hidx hlits hres
    obtain ⟨x, rfl⟩ := hlits v (by simp)
    cases hw : dumpResult t col x dmp false with
    | none =>
      have hvref : any_ref t col (some (.lit x)) dmp false =
          (.error .pyError, { t with next_index := t.next_index + 1 }) := by
        simp only [any_ref, value_ref_err hw]
      simp only [inLoop, hvref] at hres
      have h1 := congrArg Prod.fst hres
      simp only at h1
      exact absurd (Except.error.inj h1) (fun hh => BloopError.noConfusion hh)
    | some w =>
      have hvrh : value_ref t col x dmp false =
          (.ok (vref t.next_index, w), (value_ref t col x dmp false).2) := by
        rw [value_ref_ok hw]
      have hvref : any_ref t col (some (.lit x)) dmp false =
          (.ok ⟨vref t.next_index, "value", w⟩, (value_ref t col x dmp false).2) := by
        conv_lhs => rw [show any_ref t col (some (.lit x)) dmp false =
          (match value_ref t col x dmp false with
           | (.ok (name, w2), t2) =>
             (.ok { name := name, type := "value", value := w2 }, t2)
           | (.error e, t2) => (.error e, t2)) from rfl]
        rw [hvrh]
      have vs := valueStep_of_value_ref hinv hvrh
      have hnext2 : (value_ref t col x dmp false).2.next_index = t.next_index + 1 := by
        rw [value_ref_ok hw]
      have hnotin : vref t.next_index ∉ entries.map Prod.fst := by
        intro hmem
        obtain ⟨p, hp, hpe⟩ := List.mem_map.mp hmem
        obtain ⟨i, hpi, hlt⟩ := hidx p hp
        rw [hpi] at hpe
        have := vref_inj hpe
        omega
      have hne_rv : ∀ p ∈ entries, p.1 ≠ vref t.next_index := by
        intro p hp hh
        exact hnotin (hh ▸ List.mem_map_of_mem Prod.fst hp)
      have happ2 : (value_ref t col x dmp false).2.attr_values =
          t0.attr_values ++ (entries ++ [(vref t.next_index, w)]) := by
        rw [vs.values_eq, happ, List.append_assoc]
      have hc2 : ∀ p ∈ entries ++ [(vref t.next_index, w)],
          countGet (value_ref t col x dmp false).2 p.1 = 1 := by
        intro p hp
        rcases List.mem_append.mp hp with hp1 | hp1
        · rw [vs.count_other _ (hne_rv p hp1)]
          exact hcounts p hp1
        · rw [List.mem_singleton] at hp1
          subst hp1
          exact vs.count_self
      have hA2 : ∀ p ∈ entries ++ [(vref t.next_index, w)],
          alookup t0.attr_values p.1 = none := by
        intro p hp
        rcases List.mem_append.mp hp with hp1 | hp1
        · exact hA0 p hp1
        · rw [List.mem_singleton] at hp1
          subst hp1
          have hfr := vs.fresh
          rw [happ] at hfr
          exact alookup_append_none_left hfr
      have hnd2 : ((entries ++ [(vref t.next_index, w)]).map Prod.fst).Nodup := by
        rw [List.map_append]
        simp only [List.map_cons, List.map_nil]
        rw [List.nodup_append]
        refine ⟨hnd0, List.nodup_singleton _, ?_⟩
        intro q hq1 hq2
        simp only [List.mem_singleton] at hq2
        subst hq2
        exact hnotin hq1
      have hmap2 : (acc ++ [(⟨vref t.next_index, "value", w⟩ : Reference)]).map
          Reference.name = (entries ++ [(vref t.next_index, w)]).map Prod.fst := by
        rw [List.map_append, List.map_append, hmap]
        rfl
      have hty2 : ∀ r ∈ acc ++ [(⟨vref t.next_index, "value", w⟩ : Reference)],
          r.type = "value" := by
        intro r hr
        rcases List.mem_append.mp hr with hr1 | hr1
        · exact hty r hr1
        · rw [List.mem_singleton] at hr1
          subst hr1
          rfl
      cases w with
      | none =>
        simp only [inLoop, hvref,
          show is_empty ⟨vref t.next_index, "value", none⟩ = true from rfl,
          if_true] at hres
        have hsnd := congrArg Prod.snd hres
        simp only at hsnd
        obtain ⟨q1, q2, q3⟩ := pop_value_chain
          (entries ++ [(vref t.next_index, none)])
          (acc ++ [⟨vref t.next_index, "value", none⟩])
          (value_ref t col x dmp false).2 t0.attr_values
          happ2 hc2 hA2 hnd2 hmap2 hty2
        rw [← hsnd]
        exact ⟨by rw [q2, vs.names_eq, hnames], q1⟩
      | some x2 =>
        simp only [inLoop, hvref,
          show is_empty ⟨vref t.next_index, "value", some x2⟩ = false from rfl,
          Bool.false_eq_true, if_false] at hres
        exact ih (value_ref t col x dmp false).2
          (acc ++ [⟨vref t.next_index, "value", some x2⟩])
          (entries ++ [(vref t.next_index, some x2)]) t'
          vs.inv happ2 (vs.names_eq.trans hnames) hmap2 hty2 hc2 hA2 hnd2
          (by
            intro p hp
            rcases List.mem_append.mp hp with hp1 | hp1
            · obtain ⟨i, hpi, hlt⟩ := hidx p hp1
              exact ⟨i, hpi, by rw [hnext2]; omega⟩
            · rw [List.mem_singleton] at hp1
              subst hp1
              exact ⟨t.next_index, rfl, by rw [hnext2]; omega⟩)
          (fun v2 hv2 => hlits v2 (by simp [hv2]))
          hres

/-- `InCondition.render` over literal operands restores the tables on
raise. -/
theorem c1aux_isin (t : ReferenceTracker) (hinv : TrackerInv t)
    (col : Column) (values : List CVal) (dmp : Bool)
    (hlits : ∀ v ∈ values, ∃ x, v = CVal.lit x)
    (m : String) (t' : ReferenceTracker)
    (hres : renderCond (.isin col values dmp) t =
      (.error (.invalidCondition m), t')) :
    t'.attr_names = t.attr_names ∧ t'.attr_values = t.attr_values := by
  cases hvs : values.isEmpty with
  | true =>
    simp only [renderCond, hvs, if_true] at hres
    have hsnd := congrArg Prod.snd hres
    simp only at hsnd
    exact ⟨by rw [← hsnd], by rw [← hsnd]⟩
  | false =>
    rcases hloop : inLoop col dmp ("Condition <" ++ reprCond (.isin col values dmp)
        ++ "> includes the value None.") t values [] with ⟨res, tl⟩
    cases res with
    | error e =>
      simp only [renderCond, hvs, Bool.false_eq_true, if_false, hloop] at hres
      have h1 := congrArg Prod.fst hres
      simp only at h1
      have h2 := congrArg Prod.snd hres
      simp only at h2
      subst h2
      have he := Except.error.inj h1
      subst he
      exact inLoop_restore col dmp _ m t values t [] [] tl hinv (by simp) rfl rfl
        (by simp) (by simp) (by simp) (by simp) (by simp) hlits hloop
    | ok refs =>
      have hcref : any_ref tl col none dmp false =
          (.ok ⟨(path_ref tl col).1, "name", none⟩, (path_ref tl col).2) := rfl
      simp only [renderCond, hvs, Bool.false_eq_true, if_false, hloop, hcref] at hres
      have h1 := congrArg Prod.fst hres
      simp only at h1
      exact absurd h1 (fun hh => Except.noConfusion hh)

/-- C1 (counterexample): for a column with a nested (two-segment)
attribute path, `Comparison.render` on a `None` operand raises
`InvalidCondition` but leaks both per-segment name placeholders: the
release targets the joined dotted name `#n0.#n1`, which has no reference
count, so `pop_refs` skips it and `attr_names` keeps `#n0` and `#n1`
although it was empty before the node. -/
theorem c1_counterexample :
    (∃ m, (renderCond (.comparison "<" colAB (.lit none) true) t0).1 =
      .error (.invalidCondition m)) ∧
    (renderCond (.comparison "<" colAB (.lit none) true) t0).2.attr_names =
      [("#n0", "a"), ("#n1", "b")] ∧
    t0.attr_names = [] := by
  exact ⟨⟨_, rfl⟩, rfl, rfl⟩

/-- C1 (amended): for every comparison-family node over a single-segment
column and literal operands, a render that raises `InvalidCondition`
because an operand resolved to a `None` value reference first releases
every reference it allocated: the tracker's `attr_names` and
`attr_values` tables after the raise equal the tables before the node was
visited.  (With a nested multi-segment path the release misses the
per-segment name placeholders — see the counterexample.) -/
theorem c1_invalid_condition_restores :
    (∀ (t : ReferenceTracker), TrackerInv t → ∀ (col : Column), col.path = [] →
      ∀ (op : String) (v : Option String) (dmp : Bool) (m : String)
        (t' : ReferenceTracker),
      renderCond (.comparison op col (.lit v) dmp) t =
        (.error (.invalidCondition m), t') →
      t'.attr_names = t.attr_names ∧ t'.attr_values = t.attr_values) ∧
    (∀ (t : ReferenceTracker), TrackerInv t → ∀ (col : Column), col.path = [] →
      ∀ (v : Option String) (dmp : Bool) (m : String) (t' : ReferenceTracker),
      renderCond (.begins_with col (.lit v) dmp) t =
        (.error (.invalidCondition m), t') →
      t'.attr_names = t.attr_names ∧ t'.attr_values = t.attr_values) ∧
    (∀ (t : ReferenceTracker), TrackerInv t → ∀ (col : Column), col.path = [] →
      ∀ (v1 v2 : Option String) (dmp : Bool) (m : String) (t' : ReferenceTracker),
      renderCond (.between col (.lit v1) (.lit v2) dmp) t =
        (.error (.invalidCondition m), t') →
      t'.attr_names = t.attr_names ∧ t'.attr_values = t.attr_values) ∧
    (∀ (t : ReferenceTracker), TrackerInv t → ∀ (col : Column), col.path = [] →
      ∀ (v : Option String) (dmp : Bool) (m : String) (t' : ReferenceTracker),
      renderCond (.contains col (.lit v) dmp) t =
        (.error (.invalidCondition m), t') →
      t'.attr_names = t.attr_names ∧ t'.attr_values = t.attr_values) ∧
    (∀ (t : ReferenceTracker), TrackerInv t →
      ∀ (col : Column) (values : List CVal) (dmp : Bool),
      (∀ v ∈ values, ∃ x, v = CVal.lit x) →
      ∀ (m : String) (t' : ReferenceTracker),
      renderCond (.isin col values dmp) t = (.error (.invalidCondition m), t') →
      t'.attr_names = t.attr_names ∧ t'.attr_values = t.attr_values) :=
  ⟨fun t hinv col hflat op v dmp m t' hres =>
      c1aux_comparison t hinv col hflat op v dmp m t' hres,
   fun t hinv col hflat v dmp m t' hres =>
      c1aux_begins t hinv col hflat v dmp m t' hres,
   fun t hinv col hflat v1 v2 dmp m t' hres =>
      c1aux_between t hinv col hflat v1 v2 dmp m t' hres,
   fun t hinv col hflat v dmp m t' hres =>
      c1aux_contains t hinv col hflat v dmp m t' hres,
   fun t hinv col values dmp hlits m t' hres =>
      c1aux_isin t hinv col values dmp hlits m t' hres⟩

/-- C1 (witness): the comparison component at the initial tracker and the
single-segment column `a`: `M.a < None` raises and both tables come back
to their initial (empty) state. -/
theorem c1_invalid_condition_restores_witness :
    (renderCond (.comparison "<" colA (.lit none) true) t0).2.attr_names =
      t0.attr_names ∧
    (renderCond (.comparison "<" colA (.lit none) true) t0).2.attr_values =
      t0.attr_values :=
  c1_invalid_condition_restores.1 t0 (tinv_init idEngine) colA rfl "<" none true
    _ _ rfl

end Bloop
